import Mathlib

/-!
Verification development for the GeminiFlow repository: a shallow embedding of
the protocol decoding and session/request orchestration layer
(`gemini_flow/gemini/protocol.py`, `provider.py`, `client.py`), together with
theorems settling the frozen claims about that layer.

The Python `json` module is embedded by an executable parser/serializer over a
`JVal` inductive; numbers keep their source lexeme (no numeric value of a JSON
number is ever decisive in the modeled code).  Known modeling bounds, each
irrelevant to the claims: lone UTF-16 surrogates in string literals are a parse
failure here (Python builds a lone-surrogate str, which `Char` cannot hold),
and the regex class `\d` of `re` is modeled as ASCII decimal digits.
-/

namespace GeminiFlow

/-- JSON values as produced by Python `json.loads`.  `num` keeps the raw
number lexeme; `obj` keeps fields in first-insertion order with duplicate keys
collapsed (last value wins), matching `dict` construction. -/
inductive JVal where
  | null
  | bool (b : Bool)
  | num (lexeme : String)
  | str (s : String)
  | arr (items : List JVal)
  | obj (fields : List (String × JVal))
deriving Repr

/-- The `{` character, written via its code point. -/
def lbraceChar : Char := Char.ofNat 123

/-- The `}` character, written via its code point. -/
def rbraceChar : Char := Char.ofNat 125

/-- JSON whitespace skipped between tokens (the set Python's `json` skips). -/
def skipWs : List Char → List Char
  | c :: cs => if c = ' ' ∨ c = '\t' ∨ c = '\n' ∨ c = '\r' then skipWs cs else c :: cs
  | [] => []

/-- Value of one hexadecimal digit character. -/
def hexDigitVal (c : Char) : Option Nat :=
  if '0' ≤ c ∧ c ≤ '9' then some (c.toNat - 48)
  else if 'a' ≤ c ∧ c ≤ 'f' then some (c.toNat - 87)
  else if 'A' ≤ c ∧ c ≤ 'F' then some (c.toNat - 55)
  else none

/-- Lowercase hexadecimal digit for a value below 16 (as Python emits). -/
def toHexDigit (n : Nat) : Char :=
  if n < 10 then Char.ofNat (48 + n) else Char.ofNat (87 + n)

/-- Prepend a decoded character to the pending string-body parse result. -/
def strCons (c : Char) : Option (List Char × List Char) → Option (List Char × List Char)
  | some (cs, r) => some (c :: cs, r)
  | none => none

/-- The value of four hexadecimal digit characters, most significant
first. -/
def hex4 (a b c d : Char) : Option Nat :=
  match hexDigitVal a, hexDigitVal b, hexDigitVal c, hexDigitVal d with
  | some va, some vb, some vc, some vd => some (((va * 16 + vb) * 16 + vc) * 16 + vd)
  | _, _, _, _ => none

/-- Parse the body of a JSON string after the opening quote, returning the
decoded characters and the input remaining after the closing quote; one
fuel unit is spent per decoded character, so input length plus one always
suffices (`jsonParse` supplies more).  Escapes follow Python `json.loads`
in strict mode: raw control characters are rejected, `\uXXXX` escapes are
decoded, and a surrogate pair of escapes is combined into one character. -/
def parseStrBody : Nat → List Char → Option (List Char × List Char)
  | 0, _ => none
  | _ + 1, [] => none
  | fuel + 1, c :: rest =>
    if c = '"' then some ([], rest)
    else if c = '\\' then
      match rest with
      | [] => none
      | e :: r =>
        if e = '"' then strCons '"' (parseStrBody fuel r)
        else if e = '\\' then strCons '\\' (parseStrBody fuel r)
        else if e = '/' then strCons '/' (parseStrBody fuel r)
        else if e = 'b' then strCons (Char.ofNat 8) (parseStrBody fuel r)
        else if e = 'f' then strCons (Char.ofNat 12) (parseStrBody fuel r)
        else if e = 'n' then strCons '\n' (parseStrBody fuel r)
        else if e = 'r' then strCons '\r' (parseStrBody fuel r)
        else if e = 't' then strCons '\t' (parseStrBody fuel r)
        else if e = 'u' then
          match r with
          | a :: b :: c2 :: d :: r2 =>
            (match hex4 a b c2 d with
             | some n =>
               if 0xD800 ≤ n ∧ n < 0xDC00 then
                 match r2 with
                 | s1 :: s2 :: e2 :: f2 :: g2 :: h2 :: r3 =>
                   if s1 = '\\' ∧ s2 = 'u' then
                     (match hex4 e2 f2 g2 h2 with
                      | some m =>
                        if 0xDC00 ≤ m ∧ m < 0xE000 then
                          strCons
                            (Char.ofNat (0x10000 + (n - 0xD800) * 0x400 + (m - 0xDC00)))
                            (parseStrBody fuel r3)
                        else none
                      | none => none)
                   else none
                 | _ => none
               else if 0xDC00 ≤ n ∧ n < 0xE000 then none
               else strCons (Char.ofNat n) (parseStrBody fuel r2)
             | none => none)
          | _ => none
        else none
    else if 0x20 ≤ c.toNat then strCons c (parseStrBody fuel rest)
    else none

/-- Maximal run of decimal digits at the front of the input. -/
def takeDigits : List Char → List Char × List Char
  | c :: cs =>
    if c.isDigit then
      let (ds, r) := takeDigits cs
      (c :: ds, r)
    else ([], c :: cs)
  | [] => ([], [])

/-- Integer part of a JSON number: `0`, or a nonzero digit then more digits. -/
def scanIntPart : List Char → Option (List Char × List Char)
  | '0' :: cs => some (['0'], cs)
  | c :: cs =>
    if c.isDigit then
      let (ds, r) := takeDigits cs
      some (c :: ds, r)
    else none
  | [] => none

/-- Optional fraction part `.digits` of a JSON number; empty when absent. -/
def scanFrac : List Char → List Char × List Char
  | '.' :: c :: cs =>
    if c.isDigit then
      let (ds, r) := takeDigits cs
      ('.' :: c :: ds, r)
    else ([], '.' :: c :: cs)
  | cs => ([], cs)

/-- Optional exponent part `[eE][+-]?digits` of a JSON number. -/
def scanExp : List Char → List Char × List Char
  | e :: cs =>
    if e = 'e' ∨ e = 'E' then
      match cs with
      | '+' :: c :: cs2 =>
        if c.isDigit then
          let (ds, r) := takeDigits cs2
          (e :: '+' :: c :: ds, r)
        else ([], e :: cs)
      | '-' :: c :: cs2 =>
        if c.isDigit then
          let (ds, r) := takeDigits cs2
          (e :: '-' :: c :: ds, r)
        else ([], e :: cs)
      | c :: cs2 =>
        if c.isDigit then
          let (ds, r) := takeDigits cs2
          (e :: c :: ds, r)
        else ([], e :: cs)
      | [] => ([], [e])
    else ([], e :: cs)
  | [] => ([], [])

/-- Scan a JSON number lexeme per the grammar Python's `json` uses:
`-?(0|[1-9][0-9]*)(\.[0-9]+)?([eE][+-]?[0-9]+)?`, greedily. -/
def scanNumber (cs : List Char) : Option (List Char × List Char) :=
  match cs with
  | '-' :: cs2 =>
    match scanIntPart cs2 with
    | some (ip, r) =>
      let (fp, r2) := scanFrac r
      let (ep, r3) := scanExp r2
      some ('-' :: (ip ++ fp ++ ep), r3)
    | none => none
  | _ =>
    match scanIntPart cs with
    | some (ip, r) =>
      let (fp, r2) := scanFrac r
      let (ep, r3) := scanExp r2
      some (ip ++ fp ++ ep, r3)
    | none => none

/-- Insert a key/value pair into an association list with `dict` semantics:
an existing key keeps its position and takes the new value. -/
def upsert (fs : List (String × JVal)) (k : String) (v : JVal) : List (String × JVal) :=
  match fs with
  | [] => [(k, v)]
  | (k0, v0) :: rest => if k0 = k then (k0, v) :: rest else (k0, v0) :: upsert rest k v

/-- Collapse duplicate keys of parsed object fields, as `dict` construction does. -/
def dedupPairs (fs : List (String × JVal)) : List (String × JVal) :=
  fs.foldl (fun acc kv => upsert acc kv.1 kv.2) []

mutual

/-- Parse one JSON value at the front of the input (no leading whitespace),
returning it with the remaining input.  Fuel decreases at each nesting step;
the top-level wrapper supplies enough for any input it is given. -/
def parseVal : Nat → List Char → Option (JVal × List Char)
  | 0, _ => none
  | _ + 1, [] => none
  | fuel + 1, c :: r =>
    if c = '"' then
      match parseStrBody (r.length + 1) r with
      | some (chars, r2) => some (JVal.str (String.mk chars), r2)
      | none => none
    else if c = '[' then
      match skipWs r with
      | [] => none
      | d :: r2 =>
        if d = ']' then some (JVal.arr [], r2)
        else
          match parseItems fuel (d :: r2) with
          | some (vs, r3) => some (JVal.arr vs, r3)
          | none => none
    else if c = lbraceChar then
      match skipWs r with
      | [] => none
      | d :: r2 =>
        if d = rbraceChar then some (JVal.obj [], r2)
        else
          match parseFields fuel (d :: r2) with
          | some (fs, r3) => some (JVal.obj (dedupPairs fs), r3)
          | none => none
    else if c = 't' then
      match r with
      | x :: y :: z :: r2 =>
        if x = 'r' ∧ y = 'u' ∧ z = 'e' then some (JVal.bool true, r2) else none
      | _ => none
    else if c = 'f' then
      match r with
      | x :: y :: z :: w :: r2 =>
        if x = 'a' ∧ y = 'l' ∧ z = 's' ∧ w = 'e' then some (JVal.bool false, r2)
        else none
      | _ => none
    else if c = 'n' then
      match r with
      | x :: y :: z :: r2 =>
        if x = 'u' ∧ y = 'l' ∧ z = 'l' then some (JVal.null, r2) else none
      | _ => none
    else if c = 'N' then
      match r with
      | x :: y :: r2 => if x = 'a' ∧ y = 'N' then some (JVal.num "NaN", r2) else none
      | _ => none
    else if c = 'I' then
      match r with
      | x1 :: x2 :: x3 :: x4 :: x5 :: x6 :: x7 :: r2 =>
        if x1 = 'n' ∧ x2 = 'f' ∧ x3 = 'i' ∧ x4 = 'n' ∧ x5 = 'i' ∧ x6 = 't' ∧ x7 = 'y' then
          some (JVal.num "Infinity", r2)
        else none
      | _ => none
    else if c = '-' then
      match r with
      | x1 :: x2 :: x3 :: x4 :: x5 :: x6 :: x7 :: x8 :: r2 =>
        if x1 = 'I' ∧ x2 = 'n' ∧ x3 = 'f' ∧ x4 = 'i' ∧ x5 = 'n' ∧ x6 = 'i' ∧ x7 = 't' ∧
            x8 = 'y' then
          some (JVal.num "-Infinity", r2)
        else
          match scanNumber (c :: r) with
          | some (lex, r3) => some (JVal.num (String.mk lex), r3)
          | none => none
      | _ =>
        match scanNumber (c :: r) with
        | some (lex, r3) => some (JVal.num (String.mk lex), r3)
        | none => none
    else
      match scanNumber (c :: r) with
      | some (lex, r2) => some (JVal.num (String.mk lex), r2)
      | none => none

/-- Parse the elements of a nonempty JSON array, positioned at the first
element, through the closing bracket. -/
def parseItems : Nat → List Char → Option (List JVal × List Char)
  | 0, _ => none
  | fuel + 1, cs =>
    match parseVal fuel cs with
    | some (v, r) =>
      (match skipWs r with
       | [] => none
       | d :: r2 =>
         if d = ',' then
           match parseItems fuel (skipWs r2) with
           | some (vs, r3) => some (v :: vs, r3)
           | none => none
         else if d = ']' then some ([v], r2)
         else none)
    | none => none

/-- Parse the fields of a nonempty JSON object, positioned at the first key,
through the closing brace.  Duplicates are collapsed by the caller. -/
def parseFields : Nat → List Char → Option (List (String × JVal) × List Char)
  | 0, _ => none
  | fuel + 1, cs =>
    match cs with
    | [] => none
    | c :: r =>
      if c = '"' then
        match parseStrBody (r.length + 1) r with
        | some (kcs, r2) =>
          (match skipWs r2 with
           | [] => none
           | d :: r3 =>
             if d = ':' then
               match parseVal fuel (skipWs r3) with
               | some (v, r4) =>
                 (match skipWs r4 with
                  | [] => none
                  | e :: r5 =>
                    if e = ',' then
                      match parseFields fuel (skipWs r5) with
                      | some (fs, r6) => some ((String.mk kcs, v) :: fs, r6)
                      | none => none
                    else if e = rbraceChar then some ([(String.mk kcs, v)], r5)
                    else none)
               | none => none
             else none)
        | none => none
      else none

end

/-- Model of Python `json.loads`: parse one JSON document with surrounding
whitespace allowed, rejecting trailing garbage. -/
def jsonParse (s : String) : Option JVal :=
  match parseVal (2 * s.length + 2) (skipWs s.data) with
  | some (v, rest) => if skipWs rest = [] then some v else none
  | none => none

/-- The six-character `\uXXXX` escape of a code unit below `0x10000`. -/
def uEscape (n : Nat) : List Char :=
  ['\\', 'u', toHexDigit (n / 4096 % 16), toHexDigit (n / 256 % 16),
   toHexDigit (n / 16 % 16), toHexDigit (n % 16)]

/-- Serialization of one character inside a JSON string, per Python
`json.dumps` with its default `ensure_ascii=True`: the short escapes for the
usual control characters, `\uXXXX` for every other character outside
`0x20`–`0x7E`, and a surrogate pair of escapes above the BMP. -/
def dumpChar (c : Char) : List Char :=
  if c = '"' then ['\\', '"']
  else if c = '\\' then ['\\', '\\']
  else if c = '\n' then ['\\', 'n']
  else if c = '\r' then ['\\', 'r']
  else if c = '\t' then ['\\', 't']
  else if c.toNat = 8 then ['\\', 'b']
  else if c.toNat = 12 then ['\\', 'f']
  else if c.toNat < 0x20 then uEscape c.toNat
  else if c.toNat ≤ 0x7E then [c]
  else if c.toNat ≤ 0xFFFF then uEscape c.toNat
  else
    uEscape (0xD800 + (c.toNat - 0x10000) / 0x400) ++
      uEscape (0xDC00 + (c.toNat - 0x10000) % 0x400)

/-- Serialization of the characters of a JSON string body. -/
def dumpStringChars : List Char → List Char
  | [] => []
  | c :: cs => dumpChar c ++ dumpStringChars cs

/-- Serialization of a JSON string, quotes included. -/
def jsonDumpStr (s : String) : String :=
  "\"" ++ String.mk (dumpStringChars s.data) ++ "\""

mutual

/-- Model of Python `json.dumps` with its default separators `", "` / `": "`
and `ensure_ascii=True`. -/
def jsonDump : JVal → String
  | JVal.null => "null"
  | JVal.bool true => "true"
  | JVal.bool false => "false"
  | JVal.num lex => lex
  | JVal.str s => jsonDumpStr s
  | JVal.arr items => "[" ++ jsonDumpItems items ++ "]"
  | JVal.obj fs => String.singleton lbraceChar ++ jsonDumpFields fs ++ String.singleton rbraceChar

/-- Array elements joined by Python's default `", "` separator. -/
def jsonDumpItems : List JVal → String
  | [] => ""
  | [v] => jsonDump v
  | v :: rest => jsonDump v ++ ", " ++ jsonDumpItems rest

/-- Object fields joined by `", "`, keys separated from values by `": "`. -/
def jsonDumpFields : List (String × JVal) → String
  | [] => ""
  | [(k, v)] => jsonDumpStr k ++ ": " ++ jsonDump v
  | (k, v) :: rest => jsonDumpStr k ++ ": " ++ jsonDump v ++ ", " ++ jsonDumpFields rest

end

/-! ## Python string primitives

Structurally recursive models of the Python `str` methods the code uses
(kernel-reducible, unlike the position-based core `String` functions). -/

/-- Python `s.startswith(pre)`. -/
def pyStartsWith (s pre : String) : Bool := pre.data.isPrefixOf s.data

/-- Python `s.endswith(suf)`. -/
def pyEndsWith (s suf : String) : Bool := suf.data.reverse.isPrefixOf s.data.reverse

/-- Python `s.lower()` over ASCII letters (the only characters it is applied
to in the modeled code). -/
def charLower (c : Char) : Char :=
  if 'A' ≤ c ∧ c ≤ 'Z' then Char.ofNat (c.toNat + 32) else c

/-- Python `s.lower()`. -/
def pyLower (s : String) : String := String.mk (s.data.map charLower)

/-- Python slicing `s[n:]`. -/
def strDrop (s : String) (n : Nat) : String := String.mk (s.data.drop n)

/-- Python `sub in s` on character lists. -/
def listInfix (sub : List Char) : List Char → Bool
  | [] => sub.isEmpty
  | c :: rest => sub.isPrefixOf (c :: rest) || listInfix sub rest

/-- Python `s.split("\n")` on a character list: the pieces between newline
characters, outermost empties included. -/
def splitNlChars : List Char → List (List Char)
  | [] => [[]]
  | c :: cs =>
    if c = '\n' then [] :: splitNlChars cs
    else
      match splitNlChars cs with
      | h :: t => (c :: h) :: t
      | [] => [[c]]

/-- Python `s.split("\n")`. -/
def pySplitNl (s : String) : List String := (splitNlChars s.data).map String.mk

/-! ## Python indexing, length and truthiness on JSON values

`protocol.py` indexes parsed values inside `try`/`except` blocks; an
operation that would raise in Python is `none` here. -/

/-- Python `len(...)`: defined for lists, strings and dicts, raises (none)
elsewhere. -/
def pyLen : JVal → Option Nat
  | JVal.arr items => some items.length
  | JVal.str s => some s.length
  | JVal.obj fs => some fs.length
  | _ => none

/-- Python `value[i]` for a nonnegative integer index: list indexing, string
indexing (yielding a one-character string), `KeyError`/`TypeError` (none) for
everything else, including dicts whose parsed keys are strings. -/
def pyGetIdx : JVal → Nat → Option JVal
  | JVal.arr items, i => items.get? i
  | JVal.str s, i => (s.data.get? i).map (fun c => JVal.str (String.mk [c]))
  | _, _ => none

/-- Successive Python indexing along a path, any failure propagating. -/
def pyGetPath (v : JVal) (path : List Nat) : Option JVal :=
  path.foldl (fun acc i => acc.bind (fun w => pyGetIdx w i)) (some v)

/-- Whether a number lexeme denotes zero (mantissa digits all `0`).  Number
truthiness is never decisive in the modeled code: every path that reads it
either skips the line for truthy and falsy alike or raises right after. -/
def numIsZero (lex : String) : Bool :=
  if lex = "NaN" ∨ lex = "Infinity" ∨ lex = "-Infinity" then false
  else ((lex.data.takeWhile (fun c => c ≠ 'e' ∧ c ≠ 'E')).filter Char.isDigit).all
    (fun c => c = '0')

/-- Python truthiness of a parsed JSON value. -/
def pyTruthy : JVal → Bool
  | JVal.null => false
  | JVal.bool b => b
  | JVal.num lex => ¬numIsZero lex
  | JVal.str s => s ≠ ""
  | JVal.arr items => ¬items.isEmpty
  | JVal.obj fs => ¬fs.isEmpty

/-! ## `protocol.py`: content extraction and delta computation -/

mutual

/-- `_flatten_strings` of `extract_text_delta_from_raw_line`: depth-first
strings of a value, dropping empty strings and `rc_`-prefixed response-class
tags; only lists are recursed into. -/
def flattenStrings : JVal → List String
  | JVal.str s => if s ≠ "" ∧ ¬pyStartsWith s "rc_" then [s] else []
  | JVal.arr items => flattenList items
  | _ => []

/-- `_flatten_strings` mapped over the items of a list. -/
def flattenList : List JVal → List String
  | [] => []
  | v :: rest => flattenStrings v ++ flattenList rest

end

/-- Python `max(candidates, key=len)`: the first string of maximal length
(later candidates replace the current one only when strictly longer). -/
def maxByLen (h : String) (t : List String) : String :=
  t.foldl (fun acc s => if s.length > acc.length then s else acc) h

/-- First branch of `_extract_content`: `response_part[4][0][1][0]` when that
is a string (an indexing failure or a non-string falls through). -/
def contentBranch1 (rp : JVal) : Option String :=
  match pyGetPath rp [4, 0, 1, 0] with
  | some (JVal.str s) => some s
  | _ => none

/-- Second branch of `_extract_content`: `response_part[4][0][1]` when a
string, or its first element when a nonempty list headed by a string. -/
def contentBranch2 (rp : JVal) : Option String :=
  match pyGetPath rp [4, 0, 1] with
  | some (JVal.str s) => some s
  | some (JVal.arr (JVal.str s :: _)) => some s
  | _ => none

/-- Third branch of `_extract_content`: deep-flatten `response_part[4]` and
take the longest collected string, when any. -/
def contentBranch3 (rp : JVal) : Option String :=
  match pyGetIdx rp 4 with
  | some v =>
    (match flattenStrings v with
     | [] => none
     | h :: t => some (maxByLen h t))
  | none => none

/-- `_extract_content`: the three branches tried in order. -/
def extractContent (rp : JVal) : Option String :=
  (contentBranch1 rp).orElse (fun _ =>
    (contentBranch2 rp).orElse (fun _ => contentBranch3 rp))

/-- The shape gate and double decode of `extract_text_delta_from_raw_line`,
through `_extract_content`: parse the raw line, require a nonempty outer
list, `len(line[0]) >= 3`, a truthy `line[0][2]` that is a string, parse it
again, require a truthy result of length at least 5, then extract content.
Every Python exception path inside the `try` blocks is a `none` here. -/
def lineContent (rawLine : String) : Option String :=
  match jsonParse rawLine with
  | none => none
  | some (JVal.arr (row :: _)) =>
    (match pyLen row with
     | none => none
     | some n =>
       if n < 3 then none
       else
         match pyGetIdx row 2 with
         | none => none
         | some cell =>
           if ¬pyTruthy cell then none
           else
             match cell with
             | JVal.str innerRaw =>
               (match jsonParse innerRaw with
                | none => none
                | some rp =>
                  if ¬pyTruthy rp then none
                  else
                    match pyLen rp with
                    | none => none
                    | some m => if m < 5 then none else extractContent rp)
             | _ => none)
  | some _ => none

/-- The final delta computation of `extract_text_delta_from_raw_line`: when
the running `last_content` is nonempty and a prefix of `content`, the delta
is the remaining suffix; otherwise the full content; the running value
becomes `content` either way. -/
def applyDelta (content lastContent : String) : Option String × String :=
  if lastContent ≠ "" ∧ pyStartsWith content lastContent then
    (some (strDrop content lastContent.length), content)
  else (some content, content)

/-- `extract_text_delta_from_raw_line`: returns `(delta, new_last_content)`,
or `(none, last_content)` when the line carries no (nonempty) content. -/
def extract_text_delta_from_raw_line (rawLine lastContent : String) :
    Option String × String :=
  match lineContent rawLine with
  | some content =>
    if content = "" then (none, lastContent) else applyDelta content lastContent
  | none => (none, lastContent)

/-- The loop body of `iter_response_text_chunks` over the split lines,
yielding each truthy delta. -/
def iterChunksGo (lastContent : String) : List String → List String
  | [] => []
  | rawLine :: rest =>
    match extract_text_delta_from_raw_line rawLine lastContent with
    | (some d, last2) =>
      if d ≠ "" then d :: iterChunksGo last2 rest else iterChunksGo last2 rest
    | (none, last2) => iterChunksGo last2 rest

/-- `iter_response_text_chunks`: split the full text on newlines and emit
the nonempty deltas in order. -/
def iter_response_text_chunks (fullText : String) : List String :=
  iterChunksGo "" (pySplitNl fullText)

/-! ## `protocol.py`: image candidate extraction -/

/-- Python `sub in s` on strings. -/
def pyContains (s sub : String) : Bool := listInfix sub.data s.data

mutual

/-- `_walk_strings` of `extract_image_candidates_from_raw_line`: depth-first
strings of a value, recursing into lists and dict values. -/
def walkStrings : JVal → List String
  | JVal.str s => [s]
  | JVal.arr items => walkList items
  | JVal.obj fs => walkFields fs
  | _ => []

/-- `_walk_strings` over list items. -/
def walkList : List JVal → List String
  | [] => []
  | v :: rest => walkStrings v ++ walkList rest

/-- `_walk_strings` over dict values. -/
def walkFields : List (String × JVal) → List String
  | [] => []
  | kv :: rest => walkStrings kv.2 ++ walkFields rest

end

/-- `_is_likely_image_url`: data URI, or http(s) URL on a known media host
or with a known image extension. -/
def isLikelyImageUrl (text : String) : Bool :=
  if pyStartsWith text "data:image/" then true
  else if ¬(pyStartsWith text "https://" ∨ pyStartsWith text "http://") then false
  else
    let lowered := pyLower text
    if pyContains lowered "googleusercontent.com" ∨ pyContains lowered "gstatic.com" ∨
        pyContains lowered "content-push.googleapis.com" then true
    else if pyEndsWith lowered ".png" ∨ pyEndsWith lowered ".jpg" ∨
        pyEndsWith lowered ".jpeg" ∨ pyEndsWith lowered ".webp" then true
    else false

/-- The `seen`/`out` loop of `extract_image_candidates_from_raw_line`:
skip empty or already-seen strings, keep likely image URLs in order. -/
def candFold (acc : List String × List String) (s : String) :
    List String × List String :=
  if s = "" ∨ acc.1.contains s then acc
  else if isLikelyImageUrl s then (acc.1 ++ [s], acc.2 ++ [s])
  else acc

/-- `extract_image_candidates_from_raw_line`: parse the line, apply the same
outer shape gate as the text decoder, then collect deduplicated likely image
URLs from the double-decoded part. -/
def extract_image_candidates_from_raw_line (rawLine : String) : List String :=
  match jsonParse rawLine with
  | none => []
  | some (JVal.arr (row :: _)) =>
    (match pyLen row with
     | none => []
     | some n =>
       if n < 3 then []
       else
         match pyGetIdx row 2 with
         | none => []
         | some cell =>
           if ¬pyTruthy cell then []
           else
             match cell with
             | JVal.str innerRaw =>
               (match jsonParse innerRaw with
                | none => []
                | some rp => ((walkStrings rp).foldl candFold ([], [])).2)
             | _ => [])
  | some _ => []

/-! ## `protocol.py`: request construction and token extraction -/

/-- The fixed protocol-version marker sent as the `bl` query parameter. -/
def REQUEST_BL_PARAM : String := "boq_assistant-bard-web-server_20240519.16_p0"

/-- The session cookie required before any network call. -/
def REQUIRED_COOKIE_NAME : String := "__Secure-1PSID"

/-- The two ephemeral values extracted from the bootstrap page. -/
structure GeminiTokens where
  snlm0e : String
  sid : Option String
deriving Repr, DecidableEq

/-- `build_request`: the fixed-shape inner payload, with one
`[[uploadRef, 1], filename]` entry per upload in order (empty when `uploads`
is `None` or empty). -/
def build_request (prompt language : String)
    (uploads : Option (List (String × String))) : JVal :=
  let imageList : List JVal :=
    match uploads with
    | some us =>
      if us.isEmpty then []
      else us.map (fun u => JVal.arr [JVal.arr [JVal.str u.1, JVal.num "1"], JVal.str u.2])
    | none => []
  JVal.arr
    [JVal.arr [JVal.str prompt, JVal.num "0", JVal.null, JVal.arr imageList,
       JVal.null, JVal.null, JVal.num "0"],
     JVal.arr [JVal.str language],
     JVal.arr [JVal.null, JVal.null, JVal.null, JVal.null, JVal.null, JVal.arr []],
     JVal.null, JVal.null, JVal.null,
     JVal.arr [JVal.num "1"], JVal.num "0", JVal.arr [], JVal.arr [],
     JVal.num "1", JVal.num "0"]

/-- The immutable per-call request value of `protocol.py`. -/
structure GeminiRequest where
  prompt : String
  language : String
  tokens : GeminiTokens
  model : String
  uploads : Option (List (String × String)) := none
deriving Repr

/-- The query parameters of `GeminiRequest.params`. -/
structure GeminiParams where
  bl : String
  hl : String
  reqid : String
  rt : String
  fsid : String
deriving Repr, DecidableEq

/-- Decimal digit accumulator for `decStr`, structurally recursive on fuel. -/
def decStrAux : Nat → Nat → List Char
  | 0, _ => []
  | fuel + 1, n =>
    if n < 10 then [Char.ofNat (48 + n)]
    else decStrAux fuel (n / 10) ++ [Char.ofNat (48 + n % 10)]

/-- Python `str(...)` of a natural number: its decimal digits (the fuel
argument strictly bounds the recursion depth and `n + 1` always suffices). -/
def decStr (n : Nat) : String := String.mk (decStrAux (n + 1) n)

/-- `GeminiRequest.params`, with `random.randint(1111, 9999)` made an
explicit argument: the fixed `bl` and `rt` markers, the language, the random
request id, and the session id with `""` standing for an absent sid. -/
def GeminiRequest.params (req : GeminiRequest) (reqid : Nat) : GeminiParams :=
  { bl := REQUEST_BL_PARAM
    hl := req.language
    reqid := decStr reqid
    rt := "c"
    fsid := match req.tokens.sid with | none => "" | some s => s }

/-- The body parameters of `GeminiRequest.data`. -/
structure GeminiBody where
  atField : String
  freq : String
deriving Repr, DecidableEq

/-- `GeminiRequest.data`: the signing token as `at`, and the double-encoded
payload `json.dumps([None, json.dumps(inner)])` as `f.req`. -/
def GeminiRequest.data (req : GeminiRequest) : GeminiBody :=
  let inner := build_request req.prompt req.language req.uploads
  { atField := req.tokens.snlm0e
    freq := jsonDump (JVal.arr [JVal.null, JVal.str (jsonDump inner)]) }

/-- Lazy capture scan for `(.*?)` up to a literal terminator with `.` not
matching a newline: the earliest terminator occurrence wins, and a newline
before it kills the match at this start position. -/
def scanCapture (term : List Char) : List Char → Option (List Char)
  | [] => if term.isPrefixOf ([] : List Char) then some [] else none
  | c :: rest =>
    if term.isPrefixOf (c :: rest) then some []
    else if c = '\n' then none
    else (scanCapture term rest).map (fun cap => c :: cap)

/-- `re.search` of a pattern `pre(.*?)term` over literals: leftmost start
position with a full match, lazy capture. -/
def searchLazy (pre term : List Char) : List Char → Option (List Char)
  | [] => none
  | c :: rest =>
    if pre.isPrefixOf (c :: rest) then
      match scanCapture term ((c :: rest).drop pre.length) with
      | some cap => some cap
      | none => searchLazy pre term rest
    else searchLazy pre term rest

/-- The codepoint ranges of Unicode general category Nd (Unicode 14.0.0):
exactly the characters that `re` matches for `\d` in a `str` pattern. -/
def ndRanges : List (Nat × Nat) :=
  [(0x30, 0x39), (0x660, 0x669), (0x6f0, 0x6f9), (0x7c0, 0x7c9),
   (0x966, 0x96f), (0x9e6, 0x9ef), (0xa66, 0xa6f), (0xae6, 0xaef),
   (0xb66, 0xb6f), (0xbe6, 0xbef), (0xc66, 0xc6f), (0xce6, 0xcef),
   (0xd66, 0xd6f), (0xde6, 0xdef), (0xe50, 0xe59), (0xed0, 0xed9),
   (0xf20, 0xf29), (0x1040, 0x1049), (0x1090, 0x1099), (0x17e0, 0x17e9),
   (0x1810, 0x1819), (0x1946, 0x194f), (0x19d0, 0x19d9), (0x1a80, 0x1a89),
   (0x1a90, 0x1a99), (0x1b50, 0x1b59), (0x1bb0, 0x1bb9), (0x1c40, 0x1c49),
   (0x1c50, 0x1c59), (0xa620, 0xa629), (0xa8d0, 0xa8d9), (0xa900, 0xa909),
   (0xa9d0, 0xa9d9), (0xa9f0, 0xa9f9), (0xaa50, 0xaa59), (0xabf0, 0xabf9),
   (0xff10, 0xff19), (0x104a0, 0x104a9), (0x10d30, 0x10d39), (0x11066, 0x1106f),
   (0x110f0, 0x110f9), (0x11136, 0x1113f), (0x111d0, 0x111d9), (0x112f0, 0x112f9),
   (0x11450, 0x11459), (0x114d0, 0x114d9), (0x11650, 0x11659), (0x116c0, 0x116c9),
   (0x11730, 0x11739), (0x118e0, 0x118e9), (0x11950, 0x11959), (0x11c50, 0x11c59),
   (0x11d50, 0x11d59), (0x11da0, 0x11da9), (0x16a60, 0x16a69), (0x16ac0, 0x16ac9),
   (0x16b50, 0x16b59), (0x1d7ce, 0x1d7ff), (0x1e140, 0x1e149), (0x1e2f0, 0x1e2f9),
   (0x1e950, 0x1e959), (0x1fbf0, 0x1fbf9)]

/-- Whether a character is a decimal digit in the `re.search` sense of `\d`:
a member of a Unicode Nd range.  ASCII digits are the first range. -/
def isUniDigit (c : Char) : Bool :=
  ndRanges.any (fun r => decide (r.1 ≤ c.toNat) && decide (c.toNat ≤ r.2))

/-- Maximal run of characters matching the class `[\d-]` (`\d` is any
Unicode decimal digit, category Nd). -/
def takeSidChars : List Char → List Char × List Char
  | c :: cs =>
    if isUniDigit c ∨ c = '-' then (c :: (takeSidChars cs).1, (takeSidChars cs).2)
    else ([], c :: cs)
  | [] => ([], [])

/-- Whether a character list starts with a double quote. -/
def headIsQuote : List Char → Bool
  | '"' :: _ => true
  | _ => false

/-- `re.search` of `pre([\d-]+)"`: leftmost start position where the literal
prefix is followed by a nonempty digit/hyphen run and a closing quote (a
greedy run all of whose characters differ from `"` admits no backtracked
shorter match, so the maximal run decides). -/
def searchSid (pre : List Char) : List Char → Option (List Char)
  | [] => none
  | c :: rest =>
    if pre.isPrefixOf (c :: rest) then
      let p := takeSidChars ((c :: rest).drop pre.length)
      if ¬p.1.isEmpty ∧ headIsQuote p.2 then some p.1
      else searchSid pre rest
    else searchSid pre rest

/-- The literal matched by the first (JSON-escaped) `SNlM0e` pattern. -/
def snlm0ePatEsc : String := "SNlM0e\\\":\\\""

/-- The terminator of the escaped pattern: `\"`. -/
def snlm0eTermEsc : String := "\\\""

/-- The literal matched by the plain `SNlM0e` fallback pattern. -/
def snlm0ePatPlain : String := "SNlM0e\":\""

/-- The terminator of the plain pattern: `"`. -/
def snlm0eTermPlain : String := "\""

/-- The literal prefix of the `FdrFJe` session-id pattern. -/
def sidPat : String := "\"FdrFJe\":\""

/-- The `SNlM0e` search of `extract_tokens`: the escaped pattern first, the
plain pattern only when the first found no match at all (a match with an
empty capture still suppresses the fallback). -/
def searchSnlm0e (html : String) : Option (List Char) :=
  match searchLazy snlm0ePatEsc.data snlm0eTermEsc.data html.data with
  | some cap => some cap
  | none => searchLazy snlm0ePatPlain.data snlm0eTermPlain.data html.data

/-- The `FdrFJe` session-id search of `extract_tokens`. -/
def extractSid (html : String) : Option String :=
  (searchSid sidPat.data html.data).map String.mk

/-- `extract_tokens`: the required token via `searchSnlm0e` (an empty
capture is rejected by the final `if not snlm0e` truthiness test); the
optional session id via `extractSid`, its absence not an error. -/
def extract_tokens (html : String) : Option GeminiTokens :=
  match searchSnlm0e html with
  | some cap =>
    if String.mk cap = "" then none else some ⟨String.mk cap, extractSid html⟩
  | none => none

/-! ## `provider.py`: the streaming generator `gen`

The generator is modeled as a pure fold over the logical lines of the
decoded response body.  The async chunk loop is collapsed to its net effect
on the concatenated decoded text: the `buffer` splitting yields every
newline-terminated piece as a logical line (trailing carriage returns
stripped), and the remaining buffer as one final line when non-blank.
Debug previews only print and are omitted; `_save_image_candidate` is
network I/O and is an oracle argument. -/

/-- The character class removed by `_CONTROL_RE`:
`[\x00-\x1F\x7F​‌‍﻿]`. -/
def isControlFiltered (c : Char) : Bool :=
  c.toNat ≤ 0x1F ∨ c.toNat = 0x7F ∨ c.toNat = 0x200B ∨ c.toNat = 0x200C ∨
    c.toNat = 0x200D ∨ c.toNat = 0xFEFF

/-- The ASCII characters Python `str.strip()` removes. -/
def pyIsSpace (c : Char) : Bool :=
  c = ' ' ∨ c = '\t' ∨ c = '\n' ∨ c = '\r' ∨ c.toNat = 0x0B ∨ c.toNat = 0x0C ∨
    (0x1C ≤ c.toNat ∧ c.toNat ≤ 0x1F)

/-- Python `str.strip()` (over its ASCII whitespace set). -/
def pyStrip (s : String) : String :=
  String.mk (((s.data.dropWhile pyIsSpace).reverse.dropWhile pyIsSpace).reverse)

/-- `_normalize_candidate`: strip, then delete the filtered control and
zero-width characters. -/
def normalizeCandidate (value : String) : String :=
  String.mk ((pyStrip value).data.filter (fun c => ¬isControlFiltered c))

/-- `_is_placeholder_or_input_image`: a generation placeholder token, or an
echoed input image reference (`/gg/` but not `/gg-dl/`). -/
def isPlaceholderOrInputImage (url : String) : Bool :=
  if pyStartsWith url "http://googleusercontent.com/image_generation_content/" then true
  else if pyContains url "lh3.googleusercontent.com/gg/" ∧
      ¬pyContains url "lh3.googleusercontent.com/gg-dl/" then true
  else false

/-- `_is_output_image_url`: a data URI or a `/gg-dl/` download URL. -/
def isOutputImageUrl (url : String) : Bool :=
  if pyStartsWith url "data:image/" then true
  else if pyContains url "lh3.googleusercontent.com/gg-dl/" then true
  else false

/-- `_is_noise_text_in_image_mode`: blank after normalization, a
placeholder/input reference, or a bare media URL on the known hosts. -/
def isNoiseTextInImageMode (text : String) : Bool :=
  let normalized := normalizeCandidate text
  if normalized = "" then true
  else if isPlaceholderOrInputImage normalized then true
  else if pyStartsWith normalized "http://" ∨ pyStartsWith normalized "https://" then
    pyContains normalized "googleusercontent.com/image_generation_content/" ∨
      pyContains normalized "lh3.googleusercontent.com/gg-dl/" ∨
      pyContains normalized "lh3.googleusercontent.com/gg/"
  else false

/-- The image-model test of `stream_chat` on the normalized model name. -/
def isImageModel (model : String) : Bool :=
  let normalized := pyLower (pyStrip model)
  pyEndsWith normalized "-image" ∨ pyEndsWith normalized "-image-preview" ∨
    pyContains normalized "-image-"

/-- The mutable state of one run of `gen`. -/
structure GenState where
  emittedAny : Bool := false
  lastContent : String := ""
  finalCand : Option String := none
  fallbackCand : Option String := none
  outputs : List String := []
deriving Repr, DecidableEq

/-- The per-candidate body of the image-candidate loop in `gen`: the first
placeholder is kept as fallback, each output candidate supersedes the
previous final candidate. -/
def processCand (st : GenState) (candidate : String) : GenState :=
  let normalized := normalizeCandidate candidate
  if normalized = "" then st
  else if isPlaceholderOrInputImage normalized then
    match st.fallbackCand with
    | none => { st with fallbackCand := some normalized }
    | some _ => st
  else if isOutputImageUrl normalized then { st with finalCand := some normalized }
  else st

/-- The text-delta part of one logical line's processing in `gen`: the
delta is yielded unless empty or image-mode noise; the running last-content
state advances either way. -/
def emitDelta (isImage : Bool) (st1 : GenState) (rawLine : String) : GenState :=
  match extract_text_delta_from_raw_line rawLine st1.lastContent with
  | (some d, last2) =>
    if d ≠ "" then
      if ¬isImage ∨ ¬isNoiseTextInImageMode d then
        { st1 with lastContent := last2, emittedAny := true, outputs := st1.outputs ++ [d] }
      else { st1 with lastContent := last2 }
    else { st1 with lastContent := last2 }
  | (none, last2) => { st1 with lastContent := last2 }

/-- Processing of one logical line in `gen`: image candidates (image mode
only), then the text delta. -/
def processRawLine (isImage : Bool) (st : GenState) (rawLine : String) : GenState :=
  emitDelta isImage
    (if isImage then (extract_image_candidates_from_raw_line rawLine).foldl processCand st
     else st)
    rawLine

/-- Python `str.rstrip("\r")`. -/
def rstripCR (s : String) : String :=
  String.mk (s.data.reverse.dropWhile (fun c => c = '\r')).reverse

/-- The logical lines `gen` processes, as a function of the concatenated
decoded stream: every newline-terminated piece, and the final buffer when it
is non-blank. -/
def logicalLines (fullText : String) : List String :=
  let parts := pySplitNl fullText
  parts.dropLast.map rstripCR ++
    (match parts.getLast? with
     | some lastPart => if pyStrip lastPart ≠ "" then [rstripCR lastPart] else []
     | none => [])

/-- The post-stream image emission of `gen` (lines 277-300 of
`provider.py`): the retained final candidate is saved (oracle `saveResult`
standing for `_save_image_candidate`) or surfaced as a URL; the retained
fallback is surfaced only when no final candidate exists. -/
def imageTailOutputs (isImage saveImages : Bool) (saveResult : String → Option String)
    (st : GenState) : GenState :=
  if isImage then
    match st.finalCand with
    | some f =>
      if saveImages then
        match saveResult f with
        | some savedPath =>
          { st with
            emittedAny := true
            outputs := st.outputs ++
              ["[image saved] " ++ savedPath ++ "\n", "[image url] " ++ f ++ "\n"] }
        | none =>
          { st with emittedAny := true, outputs := st.outputs ++ ["[image] " ++ f ++ "\n"] }
      else
        { st with
          emittedAny := true
          outputs := st.outputs ++ ["[image url] " ++ f ++ "\n"] }
    | none =>
      match st.fallbackCand with
      | some fb =>
        { st with emittedAny := true, outputs := st.outputs ++ ["[image] " ++ fb ++ "\n"] }
      | none => st
  else st

/-- The diagnostic raised by `gen` when nothing was emitted. -/
def noTextError : String :=
  "No text could be parsed from StreamGenerate response. " ++
    "Try --debug and share the preview; response format may have changed."

/-- The state of `gen`'s fold after the streaming loop, before the image
tail. -/
def genStreamState (isImage : Bool) (fullText : String) : GenState :=
  (logicalLines fullText).foldl (processRawLine isImage) {}

/-- The final state of `gen`'s fold over the stream, image tail included. -/
def genFinalState (isImage saveImages : Bool) (saveResult : String → Option String)
    (fullText : String) : GenState :=
  imageTailOutputs isImage saveImages saveResult (genStreamState isImage fullText)

/-- One run of `gen` over a successfully opened response stream: the ordered
yields, or the `RequestError` raised when nothing was ever emitted. -/
def genRun (isImage saveImages : Bool) (saveResult : String → Option String)
    (fullText : String) : Except String (List String) :=
  let st := genFinalState isImage saveImages saveResult fullText
  if st.emittedAny then Except.ok st.outputs else Except.error noTextError

/-! ## `client.py`: the chat orchestration

`chat` is modeled as a function of an environment of oracle outcomes for its
collaborators (`load_google_cookies`, `ensure_playwright_cookies`, and the
eager part of `stream_chat`), returning the result together with the trace
of collaborator invocations.  `stream_chat` is async but returns its
generator without iterating it, so the part of it that `chat`'s
`try`/`except` can observe is the cookie gate, `fetch_tokens`,
`upload_images`, and request construction; the streaming itself runs lazily
in the caller, outside the retry. -/

/-- Cookie jar: name/value pairs. -/
abbrev Cookies := List (String × String)

/-- The error kinds distinguishable in the modeled orchestration. -/
inductive GemErr where
  | missingAuth
  | tokenFetch
  | requestUpload
  | loadFailed
  | refreshFailed
deriving Repr, DecidableEq

/-- What a successful `stream_chat` call hands back before any streaming:
the request context the lazy generator will use. -/
structure StreamHandle where
  cookies : Cookies
  tokens : GeminiTokens
  uploads : Option (List (String × String))
deriving Repr, DecidableEq

/-- Oracle outcomes for one `stream_chat` invocation: the token fetch
(`none` = `TokenFetchError`), and the image upload (`none` = an upload
exception, wrapped as `RequestError`). -/
structure AttemptSpec where
  tokenResult : Option GeminiTokens := none
  uploadResult : Option (List (String × String)) := none
deriving Repr, DecidableEq

/-- Trace events: collaborator invocations of one `chat` call. -/
inductive Ev where
  | loadCookies (ok : Bool)
  | refresh
  | streamCall (cookies : Cookies)
  | fetchTokens (result : Option GeminiTokens)
  | uploadImages (ok : Bool)
  | buildReq (tokens : GeminiTokens)
deriving Repr, DecidableEq

/-- The eager part of `GeminiWebProvider.stream_chat`: require the session
cookie, fetch tokens, upload images when supplied (failure wrapped as a
request error, propagating immediately), then build the request from the
just-fetched tokens and return the stream handle. -/
def streamChatModel (cookies : Cookies) (hasImages : Bool) (spec : AttemptSpec) :
    Except GemErr StreamHandle × List Ev :=
  if ¬(cookies.map Prod.fst).contains REQUIRED_COOKIE_NAME then
    (Except.error GemErr.missingAuth, [Ev.streamCall cookies])
  else
    match spec.tokenResult with
    | none => (Except.error GemErr.tokenFetch, [Ev.streamCall cookies, Ev.fetchTokens none])
    | some tk =>
      if hasImages then
        match spec.uploadResult with
        | none =>
          (Except.error GemErr.requestUpload,
            [Ev.streamCall cookies, Ev.fetchTokens (some tk), Ev.uploadImages false])
        | some ups =>
          (Except.ok ⟨cookies, tk, some ups⟩,
            [Ev.streamCall cookies, Ev.fetchTokens (some tk), Ev.uploadImages true,
             Ev.buildReq tk])
      else
        (Except.ok ⟨cookies, tk, none⟩,
          [Ev.streamCall cookies, Ev.fetchTokens (some tk), Ev.buildReq tk])

/-- The oracle environment of one `chat` call: successive outcomes of
`load_google_cookies` (`none` = raise), of `ensure_playwright_cookies`
(`false` = raise), and of the `stream_chat` invocations. -/
structure ChatEnv where
  loads : List (Option Cookies) := []
  refreshes : List Bool := []
  attempts : List AttemptSpec := []
deriving Repr

/-- The body of `chat` after cookies are in hand: first `stream_chat`
invocation; on any exception, when auto-refresh is enabled, one forced
refresh, one reload, and a second invocation whose outcome is final. -/
def chatAttempts (autoRefresh hasImages : Bool) (cookies : Cookies) (env : ChatEnv)
    (evs : List Ev) : Except GemErr StreamHandle × List Ev :=
  let spec1 := env.attempts.headD {}
  let env1 := { env with attempts := env.attempts.tail }
  let r1 := streamChatModel cookies hasImages spec1
  match r1.1 with
  | Except.ok h => (Except.ok h, evs ++ r1.2)
  | Except.error e =>
    if ¬autoRefresh then (Except.error e, evs ++ r1.2)
    else
      let rOk := env1.refreshes.headD false
      let env2 := { env1 with refreshes := env1.refreshes.tail }
      if ¬rOk then (Except.error GemErr.refreshFailed, evs ++ r1.2 ++ [Ev.refresh])
      else
        match env2.loads.headD none with
        | none =>
          (Except.error GemErr.loadFailed,
            evs ++ r1.2 ++ [Ev.refresh, Ev.loadCookies false])
        | some c2 =>
          let spec2 := env2.attempts.headD {}
          let r2 := streamChatModel c2 hasImages spec2
          (r2.1, evs ++ r1.2 ++ [Ev.refresh, Ev.loadCookies true] ++ r2.2)

/-- `GeminiWebClient.chat`: `_load_or_refresh` (load; on failure, when
auto-refresh is enabled, refresh once and reload, failures fatal), then the
attempt driver `chatAttempts`. -/
def chatModel (autoRefresh hasImages : Bool) (env : ChatEnv) :
    Except GemErr StreamHandle × List Ev :=
  match env.loads.headD none with
  | some cookies =>
    chatAttempts autoRefresh hasImages cookies { env with loads := env.loads.tail }
      [Ev.loadCookies true]
  | none =>
    if ¬autoRefresh then (Except.error GemErr.loadFailed, [Ev.loadCookies false])
    else
      let env1 := { env with loads := env.loads.tail }
      let rOk := env1.refreshes.headD false
      let env2 := { env1 with refreshes := env1.refreshes.tail }
      if ¬rOk then
        (Except.error GemErr.refreshFailed, [Ev.loadCookies false, Ev.refresh])
      else
        match env2.loads.headD none with
        | none =>
          (Except.error GemErr.loadFailed,
            [Ev.loadCookies false, Ev.refresh, Ev.loadCookies false])
        | some cookies =>
          chatAttempts autoRefresh hasImages cookies
            { env2 with loads := env2.loads.tail }
            [Ev.loadCookies false, Ev.refresh, Ev.loadCookies true]

/-! ## Statement vocabulary and fixtures

Definitions below are not translations of source functions; they are the
vocabulary the claim statements are written in (classification of claims'
cases, well-formedness for the round-trip statement, concrete wire-format
fixtures). -/

/-- The malformedness cases of claim C6, as one decidable predicate over a
raw line: invalid JSON, a non-list or empty outer value, wrong arity of the
first row, a missing/falsy/non-string third cell, an unparsable or
too-short double-decoded part, or missing/empty extracted content. -/
def malformedRawLine (rawLine : String) : Bool :=
  match jsonParse rawLine with
  | none => true
  | some (JVal.arr []) => true
  | some (JVal.arr (row :: _)) =>
    (match pyLen row with
     | none => true
     | some n =>
       if n < 3 then true
       else
         match pyGetIdx row 2 with
         | none => true
         | some cell =>
           if ¬pyTruthy cell then true
           else
             match cell with
             | JVal.str innerRaw =>
               (match jsonParse innerRaw with
                | none => true
                | some rp =>
                  if ¬pyTruthy rp then true
                  else
                    match pyLen rp with
                    | none => true
                    | some m =>
                      if m < 5 then true
                      else
                        match extractContent rp with
                        | none => true
                        | some c => c = "")
             | _ => true)
  | some _ => true

/-- A stream candidate that `gen` classifies as an output image: nonempty
after normalization, not a placeholder/input echo, and output-shaped. -/
def outputClassified (c : String) : Option String :=
  let n := normalizeCandidate c
  if n ≠ "" ∧ ¬isPlaceholderOrInputImage n ∧ isOutputImageUrl n then some n else none

/-- A stream candidate that `gen` classifies as a placeholder/input echo. -/
def placeholderClassified (c : String) : Option String :=
  let n := normalizeCandidate c
  if n ≠ "" ∧ isPlaceholderOrInputImage n then some n else none

/-- All image candidates of a stream, in extraction order. -/
def streamCandidates (fullText : String) : List String :=
  (logicalLines fullText).flatMap extract_image_candidates_from_raw_line

/-- The image notification `gen` emits for a final output candidate `f`:
a function of `f` (and the save oracle) alone — the fallback plays no part. -/
def finalEmission (saveImages : Bool) (saveResult : String → Option String)
    (f : String) : List String :=
  if saveImages then
    match saveResult f with
    | some p => ["[image saved] " ++ p ++ "\n", "[image url] " ++ f ++ "\n"]
    | none => ["[image] " ++ f ++ "\n"]
  else ["[image url] " ++ f ++ "\n"]

mutual

/-- Well-formedness for the round-trip statement: no objects, and number
lexemes limited to the literals `0` and `1` — the only numbers
`build_request` emits. -/
def jwf : JVal → Bool
  | JVal.null => true
  | JVal.bool _ => true
  | JVal.num lex => lex = "0" ∨ lex = "1"
  | JVal.str _ => true
  | JVal.arr items => jwfList items
  | JVal.obj _ => false

/-- `jwf` over the items of an array. -/
def jwfList : List JVal → Bool
  | [] => true
  | v :: rest => jwf v ∧ jwfList rest

end

mutual

/-- Fuel sufficient for `parseVal` on the serialization of a value. -/
def fuelNeed : JVal → Nat
  | JVal.arr items => 1 + fuelNeedItems items
  | _ => 1

/-- Fuel sufficient for `parseItems` on serialized items. -/
def fuelNeedItems : List JVal → Nat
  | [] => 1
  | v :: rest => 1 + max (fuelNeed v) (fuelNeedItems rest)

end

/-- Input contexts in which a serialized number lexeme is followed by a
character that cannot extend it: end of input, a separator, or a closing
bracket. -/
def delimOk (r : List Char) : Prop :=
  r = [] ∨ (∃ t, r = ',' :: t) ∨ (∃ t, r = ']' :: t)

/-- The number-delimiter condition, required only for number values. -/
def restOkNum : JVal → List Char → Prop
  | JVal.num _, r => delimOk r
  | _, _ => True

/-- The `[[uploadRef, 1], filename]` entry of one upload. -/
def uploadEntry (u : String × String) : JVal :=
  JVal.arr [JVal.arr [JVal.str u.1, JVal.num "1"], JVal.str u.2]

/-- An inner response payload whose element 4 carries `content` at
`[0][1][0]` — the first-branch wire shape. -/
def innerPayloadWith (content : String) : String :=
  "[null,null,null,null,[[null,[\"" ++ content ++ "\"]]]]"

/-- A full raw response line embedding `innerPayloadWith content` as the
double-encoded third cell of the first row. -/
def rawLineWith (content : String) : String :=
  "[[\"wrb.fr\",null," ++ jsonDumpStr (innerPayloadWith content) ++ "]]"

/-- A raw line whose double-decoded part carries one string `u` (too short
for text extraction, visible to image-candidate extraction). -/
def imgLineWith (u : String) : String :=
  "[[\"wrb.fr\",null," ++ jsonDumpStr ("[1,[\"" ++ u ++ "\"]]") ++ "]]"

/-- An image-mode stream fixture: an input echo, two output candidates in
order, then another echo. -/
def c9Stream : String :=
  imgLineWith "https://lh3.googleusercontent.com/gg/echo1" ++ "\n" ++
    imgLineWith "https://lh3.googleusercontent.com/gg-dl/out1" ++ "\n" ++
    imgLineWith "https://lh3.googleusercontent.com/gg-dl/out2" ++ "\n" ++
    imgLineWith "https://lh3.googleusercontent.com/gg/echo2" ++ "\n"

/-- Bootstrap-page fixture for the C8 scenario: a plain `SNlM0e` token and
a numeric `FdrFJe` session id. -/
def c8Html : String :=
  "xx SNlM0e\":\"tok123\" yy \"FdrFJe\":\"-555\" zz"

/-- Bootstrap-page fixture with an `FdrFJe` field whose value contains
characters outside digits-and-hyphens. -/
def c10Html : String :=
  "aa SNlM0e\":\"tok9\" bb \"FdrFJe\":\"ab-12\" cc"

/-- Number of `ensure_playwright_cookies` invocations in a trace. -/
def countRefresh : List Ev → Nat
  | [] => 0
  | Ev.refresh :: t => countRefresh t + 1
  | _ :: t => countRefresh t

/-- Number of `stream_chat` invocations in a trace. -/
def countStreamCalls : List Ev → Nat
  | [] => 0
  | Ev.streamCall _ :: t => countStreamCalls t + 1
  | _ :: t => countStreamCalls t

/-- A cookie jar carrying the required `__Secure-1PSID` session cookie. -/
def c1Cookies : Cookies := [(REQUIRED_COOKIE_NAME, "v")]

/-- A token pair as fetched from the bootstrap page. -/
def c1Tokens : GeminiTokens := { snlm0e := "tok"
                                 sid := none }

/-- A chat environment whose initial cookie load fails and whose first
`stream_chat` invocation fails in the token fetch; both recoveries
succeed. -/
def c1Env : ChatEnv :=
  { loads := [none, some c1Cookies, some c1Cookies]
    refreshes := [true, true]
    attempts := [{ tokenResult := none }, { tokenResult := some c1Tokens }] }

/-- A chat environment whose first `stream_chat` invocation fails in the
image upload; the recovery succeeds. -/
def c2Env : ChatEnv :=
  { loads := [some c1Cookies, some c1Cookies]
    refreshes := [true]
    attempts := [{ tokenResult := some c1Tokens
                   uploadResult := none },
                 { tokenResult := some c1Tokens
                   uploadResult := some [] }] }

/-! ## Theorems -/

theorem stringDropZero (s : String) : strDrop s 0 = s := by
  simp [strDrop]

theorem iterChunksGo_no_empty (lines : List String) :
    ∀ lastC : String, "" ∉ iterChunksGo lastC lines := by
  induction lines with
  | nil => intro lastC; simp [iterChunksGo]
  | cons l rest ih =>
    intro lastC
    rcases h : extract_text_delta_from_raw_line l lastC with ⟨d?, last2⟩
    cases d? with
    | none => simpa [iterChunksGo, h] using ih last2
    | some d =>
      by_cases hd : d = ""
      · simpa [iterChunksGo, h, hd] using ih last2
      · simp only [iterChunksGo, h]
        simp [hd, List.mem_cons]
        exact ⟨fun he => hd he.symm, ih last2⟩

/-- C4: for every pair (content, lastEmittedContent), when content starts
with the last emitted content the delta is exactly the remaining suffix and
the running state becomes content; otherwise the delta is the whole content
and the state resets to content; empty deltas are never emitted; and the
decoder yields "Hello" then " world" for "Hello"/"Hello world", "Hello"
then "Goodbye" for "Hello"/"Goodbye", and no second delta for a repeated
content. -/
theorem claim_C4_delta_idempotence :
    (∀ content lastC : String, pyStartsWith content lastC →
        applyDelta content lastC = (some (strDrop content lastC.length), content)) ∧
    (∀ content lastC : String, ¬pyStartsWith content lastC →
        applyDelta content lastC = (some content, content)) ∧
    (∀ fullText : String, "" ∉ iter_response_text_chunks fullText) ∧
    iter_response_text_chunks (rawLineWith "Hello" ++ "\n" ++ rawLineWith "Hello world")
      = ["Hello", " world"] ∧
    iter_response_text_chunks (rawLineWith "Hello" ++ "\n" ++ rawLineWith "Goodbye")
      = ["Hello", "Goodbye"] ∧
    iter_response_text_chunks (rawLineWith "Hello" ++ "\n" ++ rawLineWith "Hello")
      = ["Hello"] := by
  refine ⟨?_, ?_, ?_, ?_, ?_, ?_⟩
  · intro content lastC h
    by_cases he : lastC = ""
    · subst he
      simp [applyDelta, stringDropZero]
    · simp [applyDelta, he, h]
  · intro content lastC h
    have hc : ¬(lastC ≠ "" ∧ pyStartsWith content lastC = true) := fun hc => h hc.2
    simp only [applyDelta, if_neg hc]
  · intro fullText; exact iterChunksGo_no_empty _ _
  · decide
  · decide
  · decide

/-- Witness for C4 at a concrete input: "Hello world" extends "Hello", and
the delta step emits exactly the suffix " world". -/
theorem claim_C4_witness :
    pyStartsWith "Hello world" "Hello" = true ∧
    applyDelta "Hello world" "Hello" = (some " world", "Hello world") :=
  ⟨by decide, claim_C4_delta_idempotence.1 "Hello world" "Hello" (by decide)⟩

theorem decStrAux_len1 (f n : Nat) (h : n < 10) (hf : 1 ≤ f) :
    (decStrAux f n).length = 1 := by
  obtain ⟨g, rfl⟩ : ∃ g, f = g + 1 := ⟨f - 1, by omega⟩
  simp [decStrAux, h]

theorem decStrAux_len2 (f n : Nat) (h1 : 10 ≤ n) (h : n < 100) (hf : 2 ≤ f) :
    (decStrAux f n).length = 2 := by
  obtain ⟨g, rfl⟩ : ∃ g, f = g + 1 := ⟨f - 1, by omega⟩
  have hn : ¬n < 10 := by omega
  simp [decStrAux, hn, decStrAux_len1 g (n / 10) (by omega) (by omega)]

theorem decStrAux_len3 (f n : Nat) (h1 : 100 ≤ n) (h : n < 1000) (hf : 3 ≤ f) :
    (decStrAux f n).length = 3 := by
  obtain ⟨g, rfl⟩ : ∃ g, f = g + 1 := ⟨f - 1, by omega⟩
  have hn : ¬n < 10 := by omega
  simp [decStrAux, hn, decStrAux_len2 g (n / 10) (by omega) (by omega) (by omega)]

theorem decStrAux_len4 (f n : Nat) (h1 : 1000 ≤ n) (h : n < 10000) (hf : 4 ≤ f) :
    (decStrAux f n).length = 4 := by
  obtain ⟨g, rfl⟩ : ∃ g, f = g + 1 := ⟨f - 1, by omega⟩
  have hn : ¬n < 10 := by omega
  simp [decStrAux, hn, decStrAux_len3 g (n / 10) (by omega) (by omega) (by omega)]

/-- C8: every built request carries the fixed protocol-version marker `bl`,
the language `hl`, the decimal random `_reqid` (four digits on the
`randint(1111, 9999)` range), the fixed `rt = "c"`, and `f.sid` equal to the
extracted sid or the empty string when absent; the body `at` equals the
`snlm0e` token; and on the scenario page the extracted tokens give
`f.sid = "-555"` and `at = "tok123"`. -/
theorem claim_C8_request_parameters :
    (∀ (req : GeminiRequest) (r : Nat),
        req.params r = ⟨REQUEST_BL_PARAM, req.language, decStr r, "c",
          req.tokens.sid.getD ""⟩) ∧
    (∀ r : Nat, 1111 ≤ r → r ≤ 9999 → (decStr r).length = 4) ∧
    (∀ req : GeminiRequest, req.data.atField = req.tokens.snlm0e) ∧
    extract_tokens c8Html = some ⟨"tok123", some "-555"⟩ ∧
    (GeminiRequest.params ⟨"p", "en", ⟨"tok123", some "-555"⟩, "m", none⟩ 2345).fsid
      = "-555" ∧
    (GeminiRequest.data ⟨"p", "en", ⟨"tok123", some "-555"⟩, "m", none⟩).atField
      = "tok123" := by
  refine ⟨?_, ?_, ?_, by decide, rfl, rfl⟩
  · intro req r
    rcases req with ⟨p, l, ⟨sn, sid⟩, m, u⟩
    cases sid <;> rfl
  · intro r h1 h2
    have : (decStrAux (r + 1) r).length = 4 := decStrAux_len4 _ _ (by omega) (by omega) (by omega)
    simpa [decStr, String.length] using this
  · intro req; rfl

/-- Witness for C8 at a concrete input: a request id from the
`randint(1111, 9999)` range has four decimal digits. -/
theorem claim_C8_witness : 1111 ≤ 2345 ∧ (decStr 2345).length = 4 :=
  ⟨by omega, claim_C8_request_parameters.2.1 2345 (by omega) (by omega)⟩

theorem takeSidChars_all (cs : List Char) :
    ∀ c ∈ (takeSidChars cs).1, isUniDigit c ∨ c = '-' := by
  induction cs with
  | nil => simp [takeSidChars]
  | cons c rest ih =>
    by_cases h : isUniDigit c ∨ c = '-'
    · simp only [takeSidChars, if_pos h]
      intro x hx
      rcases List.mem_cons.mp hx with rfl | hx
      · exact h
      · exact ih x hx
    · simp [takeSidChars, h]

theorem searchSid_sound (pre : List Char) (cs : List Char) :
    ∀ run, searchSid pre cs = some run →
      run ≠ [] ∧ ∀ c ∈ run, isUniDigit c ∨ c = '-' := by
  induction cs with
  | nil => intro run h; simp [searchSid] at h
  | cons c rest ih =>
    intro run h
    simp only [searchSid] at h
    split at h
    · split at h
      · rename_i hcond
        injection h with h2
        subst h2
        refine ⟨?_, takeSidChars_all _⟩
        intro hemp
        rw [hemp] at hcond
        simp at hcond
      · exact ih run h
    · exact ih run h

/-- C10: `extract_tokens` accepts a session id only when the `FdrFJe` value
is a nonempty run of decimal digits (Unicode category Nd, the class the
pattern's `\d` matches) and hyphens; with any other character present no
sid is extracted, and the request's `f.sid` parameter is the empty string
even though an `FdrFJe` field was present. -/
theorem claim_C10_sid_charset :
    (∀ html t s, extract_tokens html = some t → t.sid = some s →
        s ≠ "" ∧ ∀ c ∈ s.data, isUniDigit c ∨ c = '-') ∧
    (∀ (req : GeminiRequest) (r : Nat), req.tokens.sid = none →
        (req.params r).fsid = "") ∧
    extract_tokens c10Html = some ⟨"tok9", none⟩ ∧
    (GeminiRequest.params ⟨"p", "en", ⟨"tok9", none⟩, "m", none⟩ 1234).fsid = "" := by
  refine ⟨?_, ?_, by decide, rfl⟩
  · intro html t s ht hs
    unfold extract_tokens at ht
    split at ht
    · rename_i cap hcap
      split at ht
      · exact absurd ht (by simp)
      · injection ht with ht2
        subst ht2
        simp only at hs
        unfold extractSid at hs
        rcases Option.map_eq_some'.mp hs with ⟨run, hrun, rfl⟩
        obtain ⟨hne, hall⟩ := searchSid_sound _ _ _ hrun
        constructor
        · intro habs
          apply hne
          have : (String.mk run).data = ("" : String).data := by rw [habs]
          simpa using this
        · intro c hc
          exact hall c hc
    · exact absurd ht (by simp)
  · intro req r h
    rcases req with ⟨p, l, ⟨sn, sid⟩, m, u⟩
    simp only at h
    subst h
    rfl

/-- Witness for C10 at a concrete input: the sid "-555" extracted from the
scenario page is nonempty and all digits/hyphens. -/
theorem claim_C10_witness :
    "-555" ≠ "" ∧ ∀ c ∈ ("-555" : String).data, isUniDigit c ∨ c = '-' :=
  claim_C10_sid_charset.1 c8Html ⟨"tok123", some "-555"⟩ "-555" (by decide) rfl

theorem malformed_lineContent (raw : String) (h : malformedRawLine raw = true) :
    lineContent raw = none ∨ lineContent raw = some "" := by
  unfold malformedRawLine at h
  unfold lineContent
  repeat' split at h
  all_goals simp_all

/-- C6: a malformed raw line — invalid JSON, non-list or empty outer value,
wrong arity, missing or non-string content — yields no delta and leaves the
running last-content state unchanged (every Python exception path is an
explicit skip in the model, so no exception escapes). -/
theorem claim_C6_malformed_lines :
    (∀ rawLine lastC, malformedRawLine rawLine = true →
        extract_text_delta_from_raw_line rawLine lastC = (none, lastC)) ∧
    malformedRawLine "not json" = true ∧
    malformedRawLine "[]" = true ∧
    malformedRawLine "[[\"wrb.fr\",null]]" = true ∧
    malformedRawLine "[[\"wrb.fr\",null,\"[1,2,3,4,5]\"]]" = true ∧
    malformedRawLine "[[\"wrb.fr\",null,\"[1,2]\"]]" = true := by
  refine ⟨?_, by decide, by decide, by decide, by decide, by decide⟩
  intro raw lastC h
  rcases malformed_lineContent raw h with hc | hc <;>
    simp [extract_text_delta_from_raw_line, hc]

/-- Witness for C6 at a concrete input: an unparsable line yields no delta
and keeps the previous running state. -/
theorem claim_C6_witness :
    extract_text_delta_from_raw_line "not json" "prev" = (none, "prev") :=
  claim_C6_malformed_lines.1 "not json" "prev" (by decide)

theorem pyLen_pos_truthy (v : JVal) (m : Nat) (h : pyLen v = some m) (hm : 0 < m) :
    pyTruthy v = true := by
  cases v with
  | str s =>
    simp only [pyLen, Option.some.injEq] at h
    simp only [pyTruthy, decide_eq_true_eq]
    intro e
    rw [e] at h
    simp [String.length] at h
    omega
  | arr items =>
    simp only [pyLen, Option.some.injEq] at h
    simp only [pyTruthy, decide_eq_true_eq]
    intro e
    obtain rfl := List.isEmpty_iff.mp e
    simp at h
    omega
  | obj fs =>
    simp only [pyLen, Option.some.injEq] at h
    simp only [pyTruthy, decide_eq_true_eq]
    intro e
    obtain rfl := List.isEmpty_iff.mp e
    simp at h
    omega
  | null => simp [pyLen] at h
  | bool b => simp [pyLen] at h
  | num lex => simp [pyLen] at h

/-- C5: content extraction is the ordered three-branch chain; the first
branch fires exactly when `responsePart[4][0][1][0]` is a string; the second
exactly when `responsePart[4][0][1]` is a string or a list headed by one;
and on a line of the claimed outer shape whose inner array has at least 5
elements with a string at `[4][0][1][0]`, the decoder extracts exactly that
string as content. -/
theorem claim_C5_branch_order :
    (∀ rp : JVal, extractContent rp =
        (contentBranch1 rp).orElse (fun _ =>
          (contentBranch2 rp).orElse (fun _ => contentBranch3 rp))) ∧
    (∀ rp s, contentBranch1 rp = some s ↔
        pyGetPath rp [4, 0, 1, 0] = some (JVal.str s)) ∧
    (∀ rp s, contentBranch2 rp = some s ↔
        pyGetPath rp [4, 0, 1] = some (JVal.str s) ∨
          ∃ rest, pyGetPath rp [4, 0, 1] = some (JVal.arr (JVal.str s :: rest))) ∧
    (∀ (raw innerRaw : String) (x y : JVal) (rowRest lineRest : List JVal)
        (inner : JVal) (m : Nat) (s : String),
        jsonParse raw =
          some (JVal.arr (JVal.arr (x :: y :: JVal.str innerRaw :: rowRest) :: lineRest)) →
        jsonParse innerRaw = some inner →
        pyLen inner = some m → 5 ≤ m →
        pyGetPath inner [4, 0, 1, 0] = some (JVal.str s) →
        lineContent raw = some s) := by
  refine ⟨fun rp => rfl, ?_, ?_, ?_⟩
  · intro rp s
    unfold contentBranch1
    cases h : pyGetPath rp [4, 0, 1, 0] with
    | none => simp
    | some v => cases v <;> simp
  · intro rp s
    unfold contentBranch2
    cases h : pyGetPath rp [4, 0, 1] with
    | none => simp
    | some v =>
      cases v with
      | str t => simp
      | arr items =>
        cases items with
        | nil => simp
        | cons hd tl => cases hd <;> simp
      | null => simp
      | bool b => simp
      | num lex => simp
      | obj fs => simp
  · intro raw innerRaw x y rowRest lineRest inner m s h1 h2 hlen hm hpath
    have hne : innerRaw ≠ "" := by
      intro e
      rw [e] at h2
      rw [show jsonParse "" = none from rfl] at h2
      exact Option.noConfusion h2
    have htr : pyTruthy inner = true := pyLen_pos_truthy inner m hlen (by omega)
    have hb1 : contentBranch1 inner = some s := by
      unfold contentBranch1
      rw [hpath]
    have h3 : ¬(rowRest.length + 1 + 1 + 1 < 3) := by omega
    have h5 : ¬(m < 5) := by omega
    have et : pyTruthy (JVal.str innerRaw) = true := by simp [pyTruthy, hne]
    have hec : extractContent inner = some s := by
      unfold extractContent
      rw [hb1]
      rfl
    have hrow : pyLen (JVal.arr (x :: y :: JVal.str innerRaw :: rowRest))
        = some (rowRest.length + 1 + 1 + 1) := by simp [pyLen]
    simp [lineContent, h1, hrow, h3, pyGetIdx, et, h2, htr, hlen, h5, hec]

/-- Witness for C5 at a concrete input: a concrete wire line of the claimed
shape, from which the decoder extracts exactly the string at `[4][0][1][0]`. -/
theorem claim_C5_witness : lineContent (rawLineWith "Hello") = some "Hello" :=
  claim_C5_branch_order.2.2.2 (rawLineWith "Hello") (innerPayloadWith "Hello")
    (JVal.str "wrb.fr") JVal.null [] []
    (JVal.arr [JVal.null, JVal.null, JVal.null, JVal.null,
      JVal.arr [JVal.arr [JVal.null, JVal.arr [JVal.str "Hello"]]]])
    5 "Hello" rfl rfl rfl (by omega) rfl

theorem processCand_pres (st : GenState) (c : String) :
    (processCand st c).emittedAny = st.emittedAny ∧
      (processCand st c).outputs = st.outputs ∧
      (processCand st c).lastContent = st.lastContent := by
  simp only [processCand]
  repeat' split
  all_goals exact ⟨rfl, rfl, rfl⟩

theorem candFold_pres (cs : List String) : ∀ st : GenState,
    ((cs.foldl processCand st).emittedAny = st.emittedAny ∧
      (cs.foldl processCand st).outputs = st.outputs ∧
      (cs.foldl processCand st).lastContent = st.lastContent) := by
  induction cs with
  | nil => intro st; simp
  | cons c rest ih =>
    intro st
    simp only [List.foldl_cons]
    obtain ⟨h1, h2, h3⟩ := ih (processCand st c)
    obtain ⟨g1, g2, g3⟩ := processCand_pres st c
    exact ⟨h1.trans g1, h2.trans g2, h3.trans g3⟩

theorem emitDelta_inv (isImage : Bool) (st1 : GenState) (l : String)
    (h : st1.emittedAny = true ↔ st1.outputs ≠ []) :
    ((emitDelta isImage st1 l).emittedAny = true ↔
      (emitDelta isImage st1 l).outputs ≠ []) := by
  unfold emitDelta
  rcases hr : extract_text_delta_from_raw_line l st1.lastContent with ⟨d?, last2⟩
  cases d? with
  | none => simpa using h
  | some d =>
    dsimp only
    by_cases hd : d = ""
    · simpa [hd] using h
    · rw [if_pos hd]
      split
      · simp
      · simpa using h

theorem processRawLine_inv (isImage : Bool) (st : GenState) (l : String)
    (h : st.emittedAny = true ↔ st.outputs ≠ []) :
    ((processRawLine isImage st l).emittedAny = true ↔
      (processRawLine isImage st l).outputs ≠ []) := by
  unfold processRawLine
  apply emitDelta_inv
  split
  · obtain ⟨h1, h2, _⟩ := candFold_pres (extract_image_candidates_from_raw_line l) st
    rw [h1, h2]
    exact h
  · exact h

theorem foldlLines_inv (isImage : Bool) (lines : List String) : ∀ st : GenState,
    (st.emittedAny = true ↔ st.outputs ≠ []) →
    ((lines.foldl (processRawLine isImage) st).emittedAny = true ↔
      (lines.foldl (processRawLine isImage) st).outputs ≠ []) := by
  induction lines with
  | nil => intro st h; simpa using h
  | cons l rest ih =>
    intro st h
    simp only [List.foldl_cons]
    exact ih _ (processRawLine_inv isImage st l h)

theorem imageTail_inv (isImage saveImages : Bool) (saveResult : String → Option String)
    (st : GenState) (h : st.emittedAny = true ↔ st.outputs ≠ []) :
    ((imageTailOutputs isImage saveImages saveResult st).emittedAny = true ↔
      (imageTailOutputs isImage saveImages saveResult st).outputs ≠ []) := by
  unfold imageTailOutputs
  repeat' split
  all_goals try simp
  all_goals simpa using h

theorem genFinalState_inv (isImage saveImages : Bool)
    (saveResult : String → Option String) (fullText : String) :
    ((genFinalState isImage saveImages saveResult fullText).emittedAny = true ↔
      (genFinalState isImage saveImages saveResult fullText).outputs ≠ []) := by
  unfold genFinalState genStreamState
  apply imageTail_inv
  apply foldlLines_inv
  simp

/-- C3: a run of `gen` fails with the `RequestError` diagnostic exactly when
it emitted nothing — a stream from which no delta and no image notification
was produced errors, and a successful result is never the empty output
list. -/
theorem claim_C3_empty_stream_fails :
    (∀ (isImage saveImages : Bool) (saveResult : String → Option String)
        (fullText : String),
      genRun isImage saveImages saveResult fullText =
        (if (genFinalState isImage saveImages saveResult fullText).outputs = []
         then Except.error noTextError
         else Except.ok (genFinalState isImage saveImages saveResult fullText).outputs)) ∧
    (∀ (isImage saveImages : Bool) (saveResult : String → Option String)
        (fullText : String) (l : List String),
      genRun isImage saveImages saveResult fullText = Except.ok l → l ≠ []) := by
  have key : ∀ (isImage saveImages : Bool) (saveResult : String → Option String)
      (fullText : String),
      genRun isImage saveImages saveResult fullText =
        (if (genFinalState isImage saveImages saveResult fullText).outputs = []
         then Except.error noTextError
         else Except.ok (genFinalState isImage saveImages saveResult fullText).outputs) := by
    intro isImage saveImages saveResult fullText
    have hinv := genFinalState_inv isImage saveImages saveResult fullText
    unfold genRun
    by_cases hout : (genFinalState isImage saveImages saveResult fullText).outputs = []
    · have : ¬(genFinalState isImage saveImages saveResult fullText).emittedAny = true := by
        intro he
        exact (hinv.mp he) hout
      simp [this, hout]
    · have : (genFinalState isImage saveImages saveResult fullText).emittedAny = true :=
        hinv.mpr hout
      simp [this, hout]
  refine ⟨key, ?_⟩
  intro isImage saveImages saveResult fullText l hok
  rw [key] at hok
  by_cases hout : (genFinalState isImage saveImages saveResult fullText).outputs = []
  · rw [if_pos hout] at hok
    exact Except.noConfusion hok
  · rw [if_neg hout] at hok
    injection hok with h2
    subst h2
    exact hout

/-- Witness for C3 at a concrete input: a one-line stream produces a
nonempty successful output list. -/
theorem claim_C3_witness :
    genRun false true (fun _ => none) (rawLineWith "Hi") = Except.ok ["Hi"] ∧
    (["Hi"] : List String) ≠ [] :=
  ⟨rfl, claim_C3_empty_stream_fails.2 false true (fun _ => none)
    (rawLineWith "Hi") ["Hi"] rfl⟩

theorem emitDelta_cands (isImage : Bool) (st1 : GenState) (l : String) :
    (emitDelta isImage st1 l).finalCand = st1.finalCand ∧
      (emitDelta isImage st1 l).fallbackCand = st1.fallbackCand := by
  unfold emitDelta
  rcases extract_text_delta_from_raw_line l st1.lastContent with ⟨d?, last2⟩
  cases d? <;> dsimp only
  · exact ⟨rfl, rfl⟩
  · repeat' split
    all_goals exact ⟨rfl, rfl⟩

theorem processCand_final (st : GenState) (c : String) :
    (processCand st c).finalCand = (outputClassified c).or st.finalCand := by
  simp only [processCand, outputClassified]
  by_cases h1 : normalizeCandidate c = ""
  · simp [h1]
  · by_cases h2 : isPlaceholderOrInputImage (normalizeCandidate c) = true
    · cases hsb : st.fallbackCand <;> simp [h1, h2, hsb]
    · by_cases h3 : isOutputImageUrl (normalizeCandidate c) = true
      · simp [h1, h2, h3]
      · simp [h1, h2, h3]

theorem processCand_fallback (st : GenState) (c : String) :
    (processCand st c).fallbackCand = st.fallbackCand.or (placeholderClassified c) := by
  simp only [processCand, placeholderClassified]
  by_cases h1 : normalizeCandidate c = ""
  · cases hsb : st.fallbackCand <;> simp [h1, hsb]
  · by_cases h2 : isPlaceholderOrInputImage (normalizeCandidate c) = true
    · cases hsb : st.fallbackCand <;> simp [h1, h2, hsb]
    · by_cases h3 : isOutputImageUrl (normalizeCandidate c) = true
      · cases hsb : st.fallbackCand <;> simp [h1, h2, h3, hsb]
      · cases hsb : st.fallbackCand <;> simp [h1, h2, h3, hsb]

theorem candFold_final (cs : List String) : ∀ st : GenState,
    (cs.foldl processCand st).finalCand =
      ((cs.filterMap outputClassified).getLast?).or st.finalCand := by
  induction cs with
  | nil => intro st; simp
  | cons c rest ih =>
    intro st
    simp only [List.foldl_cons, List.filterMap_cons]
    rw [ih (processCand st c), processCand_final st c]
    cases ho : outputClassified c with
    | none => simp
    | some n =>
      simp only [List.getLast?_cons]
      cases hl : (rest.filterMap outputClassified).getLast? <;> simp [hl]

theorem candFold_fallback (cs : List String) : ∀ st : GenState,
    (cs.foldl processCand st).fallbackCand =
      st.fallbackCand.or ((cs.filterMap placeholderClassified).head?) := by
  induction cs with
  | nil => intro st; cases hsb : st.fallbackCand <;> simp [hsb]
  | cons c rest ih =>
    intro st
    simp only [List.foldl_cons, List.filterMap_cons]
    rw [ih (processCand st c), processCand_fallback st c]
    cases hp : placeholderClassified c with
    | none => simp
    | some n =>
      simp only [List.head?_cons]
      cases hsb : st.fallbackCand <;> simp [hsb]

theorem processRawLine_cands (st : GenState) (l : String) :
    (processRawLine true st l).finalCand =
      (((extract_image_candidates_from_raw_line l).filterMap outputClassified).getLast?).or
        st.finalCand ∧
    (processRawLine true st l).fallbackCand =
      st.fallbackCand.or
        (((extract_image_candidates_from_raw_line l).filterMap
            placeholderClassified).head?) := by
  unfold processRawLine
  obtain ⟨h1, h2⟩ := emitDelta_cands true
    ((extract_image_candidates_from_raw_line l).foldl processCand st) l
  constructor
  · simp only [if_true]  -- hmm condition is `true = true`
    rw [h1, candFold_final]
  · simp only [if_true]
    rw [h2, candFold_fallback]

theorem linesFold_cands (lines : List String) : ∀ st : GenState,
    ((lines.foldl (processRawLine true) st).finalCand =
      (((lines.flatMap extract_image_candidates_from_raw_line).filterMap
          outputClassified).getLast?).or st.finalCand) ∧
    ((lines.foldl (processRawLine true) st).fallbackCand =
      st.fallbackCand.or
        (((lines.flatMap extract_image_candidates_from_raw_line).filterMap
            placeholderClassified).head?)) := by
  induction lines with
  | nil => intro st; simp
  | cons l rest ih =>
    intro st
    simp only [List.foldl_cons, List.flatMap_cons, List.filterMap_append,
      List.getLast?_append, List.head?_append]
    obtain ⟨ih1, ih2⟩ := ih (processRawLine true st l)
    obtain ⟨p1, p2⟩ := processRawLine_cands st l
    constructor
    · rw [ih1, p1, Option.or_assoc]
    · rw [ih2, p2, Option.or_assoc]

/-- C9: across one image-mode turn, the retained final output candidate is
the last output-classified candidate of the stream, the retained
placeholder/fallback candidate is the first placeholder-classified one, and
the emitted image notification is a function of the final candidate alone —
the fallback is surfaced only when no output candidate ever appeared. -/
theorem claim_C9_candidate_retention :
    ∀ (saveImages : Bool) (saveResult : String → Option String) (fullText : String),
      ((genStreamState true fullText).finalCand =
        ((streamCandidates fullText).filterMap outputClassified).getLast?) ∧
      ((genStreamState true fullText).fallbackCand =
        ((streamCandidates fullText).filterMap placeholderClassified).head?) ∧
      (∀ f, (genStreamState true fullText).finalCand = some f →
        (genFinalState true saveImages saveResult fullText).outputs =
          (genStreamState true fullText).outputs ++ finalEmission saveImages saveResult f) ∧
      (∀ fb, (genStreamState true fullText).finalCand = none →
        (genStreamState true fullText).fallbackCand = some fb →
        (genFinalState true saveImages saveResult fullText).outputs =
          (genStreamState true fullText).outputs ++ ["[image] " ++ fb ++ "\n"]) := by
  intro saveImages saveResult fullText
  obtain ⟨hf, hb⟩ := linesFold_cands (logicalLines fullText)
    ({} : GenState)
  refine ⟨?_, ?_, ?_, ?_⟩
  · rw [show genStreamState true fullText =
        (logicalLines fullText).foldl (processRawLine true) {} from rfl, hf]
    simp [streamCandidates]
  · rw [show genStreamState true fullText =
        (logicalLines fullText).foldl (processRawLine true) {} from rfl, hb]
    simp [streamCandidates]
  · intro f hsome
    unfold genFinalState imageTailOutputs finalEmission
    rw [hsome]
    simp only [if_true]
    split
    · split <;> simp
    · simp
  · intro fb hnone hsome
    unfold genFinalState imageTailOutputs
    rw [hnone, hsome]
    simp

/-- Witness for C9 at a concrete input: in a stream carrying an echo, two
output candidates and another echo, the second output candidate is the one
surfaced, superseding the first, and the first echo is the retained
fallback. -/
theorem claim_C9_witness :
    (genStreamState true c9Stream).finalCand =
      some "https://lh3.googleusercontent.com/gg-dl/out2" ∧
    (genStreamState true c9Stream).fallbackCand =
      some "https://lh3.googleusercontent.com/gg/echo1" ∧
    (genFinalState true false (fun _ => none) c9Stream).outputs =
      (genStreamState true c9Stream).outputs ++
        finalEmission false (fun _ => none)
          "https://lh3.googleusercontent.com/gg-dl/out2" :=
  ⟨rfl, rfl,
    (claim_C9_candidate_retention false (fun _ => none) c9Stream).2.2.1
      "https://lh3.googleusercontent.com/gg-dl/out2" rfl⟩

theorem hexDigitVal_toHexDigit : ∀ d : Nat, d < 16 → hexDigitVal (toHexDigit d) = some d := by
  intro d hd
  interval_cases d <;> decide

theorem char_valid_nat (c : Char) :
    c.toNat < 0xD800 ∨ (0xDFFF < c.toNat ∧ c.toNat < 0x110000) :=
  c.valid

theorem hex4_toHexDigit (n : Nat) (hn : n < 0x10000) :
    hex4 (toHexDigit (n / 4096 % 16)) (toHexDigit (n / 256 % 16))
      (toHexDigit (n / 16 % 16)) (toHexDigit (n % 16)) = some n := by
  have e1 := hexDigitVal_toHexDigit (n / 4096 % 16) (by omega)
  have e2 := hexDigitVal_toHexDigit (n / 256 % 16) (by omega)
  have e3 := hexDigitVal_toHexDigit (n / 16 % 16) (by omega)
  have e4 := hexDigitVal_toHexDigit (n % 16) (by omega)
  simp only [hex4, e1, e2, e3, e4]
  congr 1
  omega

theorem parseStrBody_uEscape (n : Nat) (f : Nat) (hn : n < 0x10000)
    (hsur : ¬(0xD800 ≤ n ∧ n < 0xE000)) (s : List Char) :
    parseStrBody (f + 1) (uEscape n ++ s) = strCons (Char.ofNat n) (parseStrBody f s) := by
  simp [uEscape, parseStrBody, hex4_toHexDigit n hn]
  rw [if_neg (by omega), if_neg (by omega)]

theorem parseStrBody_surrogatePair (hi lo : Nat) (f : Nat)
    (hhi1 : 0xD800 ≤ hi) (hhi2 : hi < 0xDC00)
    (hlo1 : 0xDC00 ≤ lo) (hlo2 : lo < 0xE000) (s : List Char) :
    parseStrBody (f + 1) (uEscape hi ++ (uEscape lo ++ s)) =
      strCons (Char.ofNat (0x10000 + (hi - 0xD800) * 0x400 + (lo - 0xDC00)))
        (parseStrBody f s) := by
  simp [uEscape, parseStrBody, hex4_toHexDigit hi (by omega : hi < 0x10000),
    hex4_toHexDigit lo (by omega : lo < 0x10000)]
  rw [if_pos (by omega)]
  rw [if_pos (by omega)]

theorem parseStrBody_dumpChar (c : Char) (f : Nat) (s : List Char) :
    parseStrBody (f + 1) (dumpChar c ++ s) = strCons c (parseStrBody f s) := by
  have hval := char_valid_nat c
  by_cases h1 : c = '"'
  · subst h1; rfl
  by_cases h2 : c = '\\'
  · subst h2; rfl
  by_cases h3 : c = '\n'
  · subst h3; rfl
  by_cases h4 : c = '\r'
  · subst h4; rfl
  by_cases h5 : c = '\t'
  · subst h5; rfl
  by_cases h6 : c.toNat = 8
  · simp only [dumpChar, if_neg h1, if_neg h2, if_neg h3, if_neg h4, if_neg h5, if_pos h6]
    have hb : parseStrBody (f + 1) ('\\' :: 'b' :: s) =
        strCons (Char.ofNat 8) (parseStrBody f s) := rfl
    rw [List.cons_append, List.cons_append, List.nil_append, hb, ← h6, Char.ofNat_toNat]
  by_cases h7 : c.toNat = 12
  · simp only [dumpChar, if_neg h1, if_neg h2, if_neg h3, if_neg h4, if_neg h5,
      if_neg h6, if_pos h7]
    have hb : parseStrBody (f + 1) ('\\' :: 'f' :: s) =
        strCons (Char.ofNat 12) (parseStrBody f s) := rfl
    rw [List.cons_append, List.cons_append, List.nil_append, hb, ← h7, Char.ofNat_toNat]
  by_cases h8 : c.toNat < 0x20
  · simp only [dumpChar, if_neg h1, if_neg h2, if_neg h3, if_neg h4, if_neg h5,
      if_neg h6, if_neg h7, if_pos h8]
    rw [parseStrBody_uEscape c.toNat f (by omega) (by omega), Char.ofNat_toNat]
  by_cases h9 : c.toNat ≤ 0x7E
  · simp only [dumpChar, if_neg h1, if_neg h2, if_neg h3, if_neg h4, if_neg h5,
      if_neg h6, if_neg h7, if_neg h8, if_pos h9]
    rw [List.cons_append, List.nil_append]
    simp only [parseStrBody]
    rw [if_neg h1, if_neg h2, if_pos (by omega)]
  by_cases h10 : c.toNat ≤ 0xFFFF
  · simp only [dumpChar, if_neg h1, if_neg h2, if_neg h3, if_neg h4, if_neg h5,
      if_neg h6, if_neg h7, if_neg h8, if_neg h9, if_pos h10]
    rw [parseStrBody_uEscape c.toNat f (by omega) (by omega), Char.ofNat_toNat]
  · simp only [dumpChar, if_neg h1, if_neg h2, if_neg h3, if_neg h4, if_neg h5,
      if_neg h6, if_neg h7, if_neg h8, if_neg h9, if_neg h10]
    rw [List.append_assoc]
    rw [parseStrBody_surrogatePair (0xD800 + (c.toNat - 0x10000) / 0x400)
      (0xDC00 + (c.toNat - 0x10000) % 0x400) f (by omega) (by omega) (by omega) (by omega)]
    rw [show 0x10000 + (0xD800 + (c.toNat - 0x10000) / 0x400 - 0xD800) * 0x400 +
        (0xDC00 + (c.toNat - 0x10000) % 0x400 - 0xDC00) = c.toNat from by omega,
      Char.ofNat_toNat]

theorem parseStrBody_dumpString (cs : List Char) : ∀ (f : Nat) (s : List Char),
    cs.length < f →
    parseStrBody f (dumpStringChars cs ++ ('"' :: s)) = some (cs, s) := by
  induction cs with
  | nil =>
    intro f s hf
    obtain ⟨g, rfl⟩ : ∃ g, f = g + 1 := ⟨f - 1, by omega⟩
    rfl
  | cons c rest ih =>
    intro f s hf
    obtain ⟨g, rfl⟩ : ∃ g, f = g + 1 := ⟨f - 1, by omega⟩
    rw [show dumpStringChars (c :: rest) = dumpChar c ++ dumpStringChars rest from rfl,
      List.append_assoc, parseStrBody_dumpChar,
      ih g s (by simpa using Nat.lt_of_succ_lt_succ hf)]
    rfl

theorem dumpChar_length_pos (c : Char) : 1 ≤ (dumpChar c).length := by
  unfold dumpChar
  repeat' split
  all_goals simp [uEscape]

theorem dumpStringChars_length_ge (cs : List Char) :
    cs.length ≤ (dumpStringChars cs).length := by
  induction cs with
  | nil => simp [dumpStringChars]
  | cons c rest ih =>
    have := dumpChar_length_pos c
    simp only [dumpStringChars, List.length_append, List.length_cons]
    omega

theorem parseVal_null (f : Nat) (rest : List Char) :
    parseVal (f + 1) ('n' :: 'u' :: 'l' :: 'l' :: rest) = some (JVal.null, rest) := rfl

theorem parseVal_true (f : Nat) (rest : List Char) :
    parseVal (f + 1) ('t' :: 'r' :: 'u' :: 'e' :: rest) = some (JVal.bool true, rest) := rfl

theorem parseVal_false (f : Nat) (rest : List Char) :
    parseVal (f + 1) ('f' :: 'a' :: 'l' :: 's' :: 'e' :: rest) =
      some (JVal.bool false, rest) := rfl

theorem parseVal_num01 (lex : String) (hlex : lex = "0" ∨ lex = "1") (f : Nat)
    (rest : List Char) (hr : delimOk rest) :
    parseVal (f + 1) (lex.data ++ rest) = some (JVal.num lex, rest) := by
  rcases hlex with rfl | rfl <;>
    rcases hr with rfl | ⟨t, rfl⟩ | ⟨t, rfl⟩ <;> rfl

theorem parseVal_str (f : Nat) (s0 : String) (rest : List Char) :
    parseVal (f + 1) ((jsonDumpStr s0).data ++ rest) = some (JVal.str s0, rest) := by
  have hdata : (jsonDumpStr s0).data = '"' :: (dumpStringChars s0.data ++ ['"']) := by
    simp [jsonDumpStr, String.data_append]
  rw [hdata, List.cons_append, List.append_assoc]
  simp only [List.cons_append, List.nil_append]
  simp only [parseVal, if_true]
  have hlen : s0.data.length <
      (dumpStringChars s0.data ++ ('"' :: rest)).length + 1 := by
    have := dumpStringChars_length_ge s0.data
    simp only [List.length_append, List.length_cons]
    omega
  rw [parseStrBody_dumpString s0.data _ rest hlen]

theorem skipWs_cons_not (c : Char) (x : List Char)
    (h : ¬(c = ' ' ∨ c = '\t' ∨ c = '\n' ∨ c = '\r')) : skipWs (c :: x) = c :: x := by
  simp [skipWs, h]

theorem jsonDump_arr_data (items : List JVal) :
    (jsonDump (JVal.arr items)).data = '[' :: ((jsonDumpItems items).data ++ [']']) := by
  simp [jsonDump, String.data_append]

theorem jsonDumpItems_cons2 (v w : JVal) (vs : List JVal) :
    jsonDumpItems (v :: w :: vs) = jsonDump v ++ ", " ++ jsonDumpItems (w :: vs) := rfl

theorem fuelNeed_pos (v : JVal) : 1 ≤ fuelNeed v := by
  cases v <;> simp [fuelNeed]

theorem fuelNeedItems_pos (items : List JVal) : 1 ≤ fuelNeedItems items := by
  cases items <;> simp [fuelNeedItems]

theorem restOkNum_nil (v : JVal) : restOkNum v [] := by
  cases v <;> simp [restOkNum, delimOk]

theorem restOkNum_comma (v : JVal) (t : List Char) : restOkNum v (',' :: t) := by
  cases v <;> simp [restOkNum, delimOk]

theorem restOkNum_rbracket (v : JVal) (t : List Char) : restOkNum v (']' :: t) := by
  cases v <;> simp [restOkNum, delimOk]

theorem jwf_num (lex : String) (h : jwf (JVal.num lex) = true) : lex = "0" ∨ lex = "1" := by
  simpa [jwf] using h

theorem jsonDump_head (v : JVal) (hw : jwf v = true) :
    ∃ c t, (jsonDump v).data = c :: t ∧
      ¬(c = ' ' ∨ c = '\t' ∨ c = '\n' ∨ c = '\r') ∧ c ≠ ']' ∧ c ≠ ',' := by
  cases v with
  | null => exact ⟨'n', ['u', 'l', 'l'], rfl, by decide, by decide, by decide⟩
  | bool b =>
    cases b with
    | true => exact ⟨'t', ['r', 'u', 'e'], rfl, by decide, by decide, by decide⟩
    | false => exact ⟨'f', ['a', 'l', 's', 'e'], rfl, by decide, by decide, by decide⟩
  | num lex =>
    rcases jwf_num lex hw with rfl | rfl
    · exact ⟨'0', [], rfl, by decide, by decide, by decide⟩
    · exact ⟨'1', [], rfl, by decide, by decide, by decide⟩
  | str s =>
    refine ⟨'"', dumpStringChars s.data ++ ['"'], ?_, by decide, by decide, by decide⟩
    simp [jsonDump, jsonDumpStr, String.data_append]
  | arr items =>
    exact ⟨'[', (jsonDumpItems items).data ++ [']'], jsonDump_arr_data items,
      by decide, by decide, by decide⟩
  | obj fs => exact absurd hw (by simp [jwf])

theorem jwfList_cons (v : JVal) (vs : List JVal) (h : jwfList (v :: vs) = true) :
    jwf v = true ∧ jwfList vs = true := by
  simpa [jwfList] using h

theorem jsonDumpItems_head (items : List JVal) (hne : items ≠ [])
    (hw : jwfList items = true) :
    ∃ c t, (jsonDumpItems items).data = c :: t ∧
      ¬(c = ' ' ∨ c = '\t' ∨ c = '\n' ∨ c = '\r') ∧ c ≠ ']' ∧ c ≠ ',' := by
  cases items with
  | nil => exact absurd rfl hne
  | cons v vs =>
    obtain ⟨hwv, hwvs⟩ := jwfList_cons v vs hw
    obtain ⟨c, t, hct, hws, hbr, hcm⟩ := jsonDump_head v hwv
    cases vs with
    | nil => exact ⟨c, t, hct, hws, hbr, hcm⟩
    | cons w ws =>
      refine ⟨c, t ++ (", " ++ jsonDumpItems (w :: ws)).data, ?_, hws, hbr, hcm⟩
      rw [jsonDumpItems_cons2, String.data_append, String.data_append, hct]
      simp [String.data_append]

mutual

theorem parse_dump_val : ∀ (v : JVal) (f : Nat) (rest : List Char),
    jwf v = true → fuelNeed v ≤ f → restOkNum v rest →
    parseVal f ((jsonDump v).data ++ rest) = some (v, rest)
  | v, 0, rest => fun _ hf _ => absurd hf (by have := fuelNeed_pos v; omega)
  | JVal.null, f + 1, rest => fun _ _ _ => parseVal_null f rest
  | JVal.bool true, f + 1, rest => fun _ _ _ => parseVal_true f rest
  | JVal.bool false, f + 1, rest => fun _ _ _ => parseVal_false f rest
  | JVal.num lex, f + 1, rest => fun hw _ hr =>
      parseVal_num01 lex (jwf_num lex hw) f rest hr
  | JVal.str s, f + 1, rest => fun _ _ _ => parseVal_str f s rest
  | JVal.obj fs, f + 1, rest => fun hw _ _ => absurd hw (by simp [jwf])
  | JVal.arr [], f + 1, rest => fun _ _ _ => by
      rw [jsonDump_arr_data, List.cons_append]
      rw [show (jsonDumpItems []).data = [] from rfl]
      simp [parseVal, skipWs]
  | JVal.arr (v :: vs), f + 1, rest => fun hw hf _ => by
      have hwl : jwfList (v :: vs) = true := by simpa [jwf] using hw
      have hfi : fuelNeedItems (v :: vs) ≤ f := by
        have he : fuelNeed (JVal.arr (v :: vs)) = 1 + fuelNeedItems (v :: vs) := rfl
        omega
      obtain ⟨c, t, hct, hws, hbr, _⟩ :=
        jsonDumpItems_head (v :: vs) (by simp) hwl
      rw [jsonDump_arr_data, List.cons_append, List.append_assoc]
      simp only [List.cons_append, List.nil_append]
      simp only [parseVal, if_true]
      rw [hct, List.cons_append, skipWs_cons_not c _ hws]
      dsimp only
      rw [if_neg hbr]
      rw [← List.cons_append, ← hct]
      rw [parse_dump_items (v :: vs) f rest (by simp) hwl hfi]
      rw [if_neg (show ¬('[' = '"') by decide)]

theorem parse_dump_items : ∀ (items : List JVal) (f : Nat) (rest : List Char),
    items ≠ [] → jwfList items = true → fuelNeedItems items ≤ f →
    parseItems f ((jsonDumpItems items).data ++ (']' :: rest)) = some (items, rest)
  | [], _, _ => fun h _ _ => absurd rfl h
  | [v], f, rest => fun _ hw hfi => by
      have hwv : jwf v = true := (jwfList_cons v [] hw).1
      obtain ⟨g, rfl⟩ : ∃ g, f = g + 1 := ⟨f - 1, by have := fuelNeedItems_pos [v]; omega⟩
      have hfv : fuelNeed v ≤ g := by
        simp only [fuelNeedItems] at hfi
        omega
      simp only [parseItems]
      rw [show jsonDumpItems [v] = jsonDump v from rfl]
      rw [parse_dump_val v g (']' :: rest) hwv hfv (restOkNum_rbracket v rest)]
      rfl
  | v :: w :: vs, f, rest => fun _ hw hfi => by
      have hwv : jwf v = true := (jwfList_cons v (w :: vs) hw).1
      have hwr : jwfList (w :: vs) = true := (jwfList_cons v (w :: vs) hw).2
      obtain ⟨g, rfl⟩ : ∃ g, f = g + 1 :=
        ⟨f - 1, by have := fuelNeedItems_pos (v :: w :: vs); omega⟩
      have hfv : fuelNeed v ≤ g := by
        simp only [fuelNeedItems] at hfi
        omega
      have hfr : fuelNeedItems (w :: vs) ≤ g := by
        simp only [fuelNeedItems] at hfi ⊢
        omega
      simp only [parseItems]
      rw [jsonDumpItems_cons2, String.data_append, String.data_append]
      rw [List.append_assoc, List.append_assoc]
      rw [show (", " : String).data ++ ((jsonDumpItems (w :: vs)).data ++ (']' :: rest))
          = ',' :: ' ' :: ((jsonDumpItems (w :: vs)).data ++ (']' :: rest)) from rfl]
      rw [parse_dump_val v g _ hwv hfv (restOkNum_comma v _)]
      dsimp only
      rw [skipWs_cons_not ',' _ (by decide)]
      dsimp only
      rw [if_pos rfl]
      rw [show skipWs (' ' :: ((jsonDumpItems (w :: vs)).data ++ (']' :: rest)))
          = skipWs ((jsonDumpItems (w :: vs)).data ++ (']' :: rest)) from by simp [skipWs]]
      obtain ⟨c, t, hct, hws, _, _⟩ := jsonDumpItems_head (w :: vs) (by simp) hwr
      rw [hct, List.cons_append, skipWs_cons_not c _ hws, ← List.cons_append, ← hct]
      rw [parse_dump_items (w :: vs) g rest (by simp) hwr hfr]

end

mutual

theorem fuelNeed_le_dump : ∀ v : JVal, fuelNeed v ≤ (jsonDump v).data.length + 1
  | JVal.null => by simp [fuelNeed]
  | JVal.bool b => by simp [fuelNeed]
  | JVal.num lex => by simp [fuelNeed]
  | JVal.str s => by simp [fuelNeed]
  | JVal.obj fs => by simp [fuelNeed]
  | JVal.arr items => by
      have h := fuelNeedItems_le_dump items
      have hlen : (jsonDump (JVal.arr items)).data.length
          = (jsonDumpItems items).data.length + 2 := by
        rw [jsonDump_arr_data]
        simp
      simp only [fuelNeed]
      omega

theorem fuelNeedItems_le_dump :
    ∀ items : List JVal, fuelNeedItems items ≤ (jsonDumpItems items).data.length + 2
  | [] => by simp [fuelNeedItems]
  | [v] => by
      have h1 := fuelNeed_le_dump v
      have h2 : fuelNeedItems ([] : List JVal) = 1 := rfl
      have h3 : jsonDumpItems [v] = jsonDump v := rfl
      simp only [fuelNeedItems, h2, h3]
      omega
  | v :: w :: vs => by
      have h1 := fuelNeed_le_dump v
      have h2 := fuelNeedItems_le_dump (w :: vs)
      have h3 : (jsonDumpItems (v :: w :: vs)).data.length
          = (jsonDump v).data.length + 2 + (jsonDumpItems (w :: vs)).data.length := by
        rw [jsonDumpItems_cons2, String.data_append, String.data_append]
        simp
        omega
      rw [show fuelNeedItems (v :: w :: vs)
          = 1 + max (fuelNeed v) (fuelNeedItems (w :: vs)) from rfl, h3]
      omega

end

theorem jsonParse_jsonDump (v : JVal) (hw : jwf v = true) :
    jsonParse (jsonDump v) = some v := by
  have hlen : (jsonDump v).length = (jsonDump v).data.length := rfl
  have hfuel : fuelNeed v ≤ 2 * (jsonDump v).length + 2 := by
    have := fuelNeed_le_dump v
    omega
  have hskip : skipWs ((jsonDump v).data) = (jsonDump v).data := by
    obtain ⟨c, t, hct, hws, _, _⟩ := jsonDump_head v hw
    rw [hct]
    exact skipWs_cons_not c t hws
  have hp := parse_dump_val v (2 * (jsonDump v).length + 2) [] hw hfuel (restOkNum_nil v)
  rw [List.append_nil] at hp
  simp only [jsonParse]
  rw [hskip, hp]
  rfl

theorem jwfList_uploadEntries :
    ∀ us : List (String × String), jwfList (us.map uploadEntry) = true
  | [] => rfl
  | u :: us => by
      simp only [List.map_cons, jwfList, uploadEntry, jwf]
      simp [jwfList_uploadEntries us, jwfList]

theorem jwf_build_request (p l : String) (u : Option (List (String × String))) :
    jwf (build_request p l u) = true := by
  cases u with
  | none => rfl
  | some us =>
    cases us with
    | nil => rfl
    | cons u0 us0 =>
      simp only [build_request, List.isEmpty_cons, Bool.false_eq_true, if_false, jwf, jwfList]
      simp [jwf, jwfList]
      exact jwfList_uploadEntries us0

/-- C7: the inner payload built by `build_request` survives a JSON
round-trip exactly, with the prompt at `[0][0]`, the language at `[1][0]`,
and one `[[uploadRef, 1], filename]` entry per upload, in order, at
`[0][3]`; with no uploads the image slot is the empty list. -/
theorem claim_C7_inner_payload_roundtrip (p l : String) (ups : List (String × String)) :
    jsonParse (jsonDump (build_request p l (some ups))) = some (build_request p l (some ups)) ∧
    pyGetPath (build_request p l (some ups)) [0, 0] = some (JVal.str p) ∧
    pyGetPath (build_request p l (some ups)) [1, 0] = some (JVal.str l) ∧
    pyGetPath (build_request p l (some ups)) [0, 3]
      = some (JVal.arr (ups.map uploadEntry)) ∧
    pyGetPath (build_request p l none) [0, 3] = some (JVal.arr []) := by
  refine ⟨jsonParse_jsonDump _ (jwf_build_request p l (some ups)), rfl, rfl, ?_, rfl⟩
  cases ups with
  | nil => rfl
  | cons u0 us0 => rfl

theorem countRefresh_append (a b : List Ev) :
    countRefresh (a ++ b) = countRefresh a + countRefresh b := by
  induction a with
  | nil => simp [countRefresh]
  | cons e t ih =>
    cases e <;> simp [countRefresh, ih] <;> omega

theorem countStreamCalls_append (a b : List Ev) :
    countStreamCalls (a ++ b) = countStreamCalls a + countStreamCalls b := by
  induction a with
  | nil => simp [countStreamCalls]
  | cons e t ih =>
    cases e <;> simp [countStreamCalls, ih] <;> omega

theorem streamChat_trace (c : Cookies) (h : Bool) (s : AttemptSpec) :
    countRefresh (streamChatModel c h s).2 = 0 ∧
    countStreamCalls (streamChatModel c h s).2 = 1 := by
  simp only [streamChatModel]
  split
  · exact ⟨rfl, rfl⟩
  · split
    · exact ⟨rfl, rfl⟩
    · split
      · split
        · exact ⟨rfl, rfl⟩
        · exact ⟨rfl, rfl⟩
      · exact ⟨rfl, rfl⟩

theorem chatAttempts_bounds (h : Bool) (c : Cookies) (env : ChatEnv) (evs : List Ev) :
    countRefresh (chatAttempts true h c env evs).2 ≤ countRefresh evs + 1 ∧
    countStreamCalls (chatAttempts true h c env evs).2 ≤ countStreamCalls evs + 2 := by
  have h1 := streamChat_trace c h (env.attempts.headD {})
  simp only [chatAttempts]
  split
  · constructor
    · rw [countRefresh_append]
      omega
    · rw [countStreamCalls_append]
      omega
  · rw [if_neg (fun hcon => hcon trivial)]
    split
    · constructor
      · rw [countRefresh_append, countRefresh_append]
        simp only [countRefresh]
        omega
      · rw [countStreamCalls_append, countStreamCalls_append]
        simp only [countStreamCalls]
        omega
    · split
      · constructor
        · rw [countRefresh_append, countRefresh_append]
          simp only [countRefresh]
          omega
        · rw [countStreamCalls_append, countStreamCalls_append]
          simp only [countStreamCalls]
          omega
      · rename_i c2 heq2
        have h2 := streamChat_trace c2 h (env.attempts.tail.headD {})
        constructor
        · rw [countRefresh_append, countRefresh_append, countRefresh_append]
          simp only [countRefresh]
          omega
        · rw [countStreamCalls_append, countStreamCalls_append, countStreamCalls_append]
          simp only [countStreamCalls]
          omega

/-- C1 (amended): with auto-refresh enabled, one `chat` call invokes the
refresh collaborator at most twice — at most once recovering the initial
cookie load and at most once in the retry path — and invokes `stream_chat`
at most twice; a request is only ever built from tokens fetched in the same
`stream_chat` invocation, and after a first-invocation failure followed by
a successful refresh and reload, the single retry's outcome is final. -/
theorem claim_C1_retry_discipline (hasImages : Bool) (env : ChatEnv) :
    countRefresh (chatModel true hasImages env).2 ≤ 2 ∧
    countStreamCalls (chatModel true hasImages env).2 ≤ 2 ∧
    (∀ (c : Cookies) (s : AttemptSpec) (tk : GeminiTokens),
      Ev.buildReq tk ∈ (streamChatModel c hasImages s).2 → s.tokenResult = some tk) ∧
    (∀ (c c2 : Cookies) (s1 : AttemptSpec) (ls : List (Option Cookies))
       (rs : List Bool) (as2 : List AttemptSpec) (evs : List Ev) (e : GemErr),
      (streamChatModel c hasImages s1).1 = Except.error e →
      chatAttempts true hasImages c
          { loads := some c2 :: ls
            refreshes := true :: rs
            attempts := s1 :: as2 } evs
        = ((streamChatModel c2 hasImages (as2.headD {})).1,
           evs ++ (streamChatModel c hasImages s1).2
             ++ [Ev.refresh, Ev.loadCookies true]
             ++ (streamChatModel c2 hasImages (as2.headD {})).2)) := by
  refine ⟨?_, ?_, ?_, ?_⟩
  · simp only [chatModel]
    split
    · exact le_trans (chatAttempts_bounds hasImages _ _ _).1 (by decide)
    · rw [if_neg (fun hcon => hcon trivial)]
      split
      · decide
      · split
        · decide
        · exact le_trans (chatAttempts_bounds hasImages _ _ _).1 (by decide)
  · simp only [chatModel]
    split
    · exact le_trans (chatAttempts_bounds hasImages _ _ _).2 (by decide)
    · rw [if_neg (fun hcon => hcon trivial)]
      split
      · decide
      · split
        · decide
        · exact le_trans (chatAttempts_bounds hasImages _ _ _).2 (by decide)
  · intro c s tk
    simp only [streamChatModel]
    split
    · intro hmem
      simp at hmem
    · split
      · intro hmem
        simp at hmem
      · rename_i tk0 heq
        split
        · split
          · intro hmem
            simp only [List.mem_cons, List.not_mem_nil, or_false] at hmem
            rcases hmem with h | h | h
            · exact Ev.noConfusion h
            · exact Ev.noConfusion h
            · exact Ev.noConfusion h
          · intro hmem
            simp only [List.mem_cons, List.not_mem_nil, or_false] at hmem
            rcases hmem with h | h | h | h
            · exact Ev.noConfusion h
            · exact Ev.noConfusion h
            · exact Ev.noConfusion h
            · injection h with h2
              rw [heq, h2]
        · intro hmem
          simp only [List.mem_cons, List.not_mem_nil, or_false] at hmem
          rcases hmem with h | h | h
          · exact Ev.noConfusion h
          · exact Ev.noConfusion h
          · injection h with h2
            rw [heq, h2]
  · intro c c2 s1 ls rs as2 evs e h1
    simp only [chatAttempts, List.headD_cons, List.tail_cons]
    rw [h1]
    simp

/-- C1 counterexample: one `chat` call whose initial cookie load fails and
whose first `stream_chat` invocation fails in the token fetch invokes the
refresh collaborator twice, refuting "at most once per call". -/
theorem claim_C1_counterexample :
    countRefresh (chatModel true false c1Env).2 = 2 ∧
    (chatModel true false c1Env).1
      = Except.ok { cookies := c1Cookies
                    tokens := c1Tokens
                    uploads := none } := ⟨rfl, rfl⟩

/-- C1 witness: the retry clause of the amended claim evaluated on a
concrete failing first attempt. -/
theorem claim_C1_witness :
    (streamChatModel c1Cookies false { tokenResult := none }).1
        = Except.error GemErr.tokenFetch ∧
    chatAttempts true false c1Cookies
        { loads := [some c1Cookies]
          refreshes := [true]
          attempts := [{ tokenResult := none }, { tokenResult := some c1Tokens }] } []
      = ((streamChatModel c1Cookies false
            (([{ tokenResult := some c1Tokens }] : List AttemptSpec).headD {})).1,
         [] ++ (streamChatModel c1Cookies false { tokenResult := none }).2
           ++ [Ev.refresh, Ev.loadCookies true]
           ++ (streamChatModel c1Cookies false
                 (([{ tokenResult := some c1Tokens }] : List AttemptSpec).headD {})).2) :=
  ⟨rfl, (claim_C1_retry_discipline false c1Env).2.2.2 c1Cookies c1Cookies
      { tokenResult := none } [] [] [{ tokenResult := some c1Tokens }] []
      GemErr.tokenFetch rfl⟩

/-- C2 (amended): when the image-upload step of a `stream_chat` invocation
fails, that invocation aborts with a request error before any request is
built, and with auto-refresh disabled the error propagates to the `chat`
caller immediately, with no refresh and no second invocation; with
auto-refresh enabled, however, the upload failure is caught like any other
`stream_chat` failure and does trigger the refresh-and-retry path. -/
theorem claim_C2_upload_error_propagation (c : Cookies) (tk : GeminiTokens)
    (env : ChatEnv) (evs : List Ev)
    (hc : (c.map Prod.fst).contains REQUIRED_COOKIE_NAME = true)
    (henv : env.attempts.headD {} = { tokenResult := some tk
                                      uploadResult := none }) :
    (streamChatModel c true (env.attempts.headD {})).1
        = Except.error GemErr.requestUpload ∧
    (∀ tk2, Ev.buildReq tk2 ∉ (streamChatModel c true (env.attempts.headD {})).2) ∧
    chatAttempts false true c env evs
      = (Except.error GemErr.requestUpload,
         evs ++ [Ev.streamCall c, Ev.fetchTokens (some tk), Ev.uploadImages false]) := by
  have hs : streamChatModel c true { tokenResult := some tk
                                     uploadResult := none }
      = (Except.error GemErr.requestUpload,
         [Ev.streamCall c, Ev.fetchTokens (some tk), Ev.uploadImages false]) := by
    simp only [streamChatModel, hc]
    simp
  refine ⟨by rw [henv, hs], ?_, ?_⟩
  · intro tk2
    rw [henv, hs]
    simp
  · simp only [chatAttempts]
    rw [henv, hs]
    simp

/-- C2 counterexample: a `chat` call with auto-refresh enabled whose first
`stream_chat` invocation fails in the image upload refreshes cookies and
invokes `stream_chat` a second time, refuting "never triggers the
auth-retry path". -/
theorem claim_C2_counterexample :
    (streamChatModel c1Cookies true (c2Env.attempts.headD {})).1
        = Except.error GemErr.requestUpload ∧
    countRefresh (chatModel true true c2Env).2 = 1 ∧
    countStreamCalls (chatModel true true c2Env).2 = 2 ∧
    (chatModel true true c2Env).1
      = Except.ok { cookies := c1Cookies
                    tokens := c1Tokens
                    uploads := some [] } := ⟨rfl, rfl, rfl, rfl⟩

/-- C2 witness: the amended claim evaluated on a concrete cookie jar and a
concrete upload-failing attempt, with auto-refresh disabled. -/
theorem claim_C2_witness :
    ((c1Cookies.map Prod.fst).contains REQUIRED_COOKIE_NAME = true) ∧
    ((streamChatModel c1Cookies true (c2Env.attempts.headD {})).1
        = Except.error GemErr.requestUpload ∧
     (∀ tk2, Ev.buildReq tk2 ∉ (streamChatModel c1Cookies true (c2Env.attempts.headD {})).2) ∧
     chatAttempts false true c1Cookies c2Env []
       = (Except.error GemErr.requestUpload,
          [] ++ [Ev.streamCall c1Cookies, Ev.fetchTokens (some c1Tokens),
                 Ev.uploadImages false])) :=
  ⟨rfl, claim_C2_upload_error_propagation c1Cookies c1Tokens c2Env [] rfl rfl⟩

end GeminiFlow
